import Mathlib

/-!
Verification of the Kolam pattern engine (kolam_geometry.py / kolam_generator.py).

The Python source is shallowly embedded: 2D points carry real coordinates,
Python floats become real numbers, Python ints become integers, Python lists
become Lean lists, and the one fallible operation (`min` over an empty
sequence inside `get_bounding_box`) is modelled with `Option`.  Loops over
`range(n)` with `enumerate`-style indexing are modelled by mapping over
`List.range` with `getD` lookups, exactly mirroring the iteration order of
the source.
-/

open scoped Classical

namespace Kolam

/-- Real-number model of `math.atan2(y, x)`: the argument of the complex
number `x + y*I`, which agrees with `atan2` on all inputs including
`atan2 0 0 = 0`, with range `(-pi, pi]`. -/
noncomputable def atan2 (y x : ℝ) : ℝ := Complex.arg ⟨x, y⟩

/-- Python `int()` applied to a float: truncation toward zero. -/
noncomputable def pyInt (x : ℝ) : ℤ := if 0 ≤ x then ⌊x⌋ else -⌊-x⌋

/-- Python `range(n)` for an `int` argument, as a list of integers
(empty when `n ≤ 0`). -/
def intRange (n : ℤ) : List ℤ := (List.range n.toNat).map fun (i : ℕ) => (i : ℤ)

/-- Python `range(start, stop, step)` for a positive `step`. -/
def intRangeStep (start stop step : ℤ) : List ℤ :=
  (List.range ((stop - start + step - 1) / step).toNat).map fun (i : ℕ) =>
    start + step * (i : ℤ)

/-- Embeds the `Point2D` dataclass of `kolam_geometry.py`. -/
structure Point2D where
  x : ℝ
  y : ℝ

/-- Embeds `Point2D.__add__`. -/
def Point2D.add (p other : Point2D) : Point2D := ⟨p.x + other.x, p.y + other.y⟩

/-- Embeds `Point2D.__sub__`. -/
def Point2D.sub (p other : Point2D) : Point2D := ⟨p.x - other.x, p.y - other.y⟩

/-- Embeds `Point2D.__mul__` (scaling by a scalar). -/
def Point2D.mul (p : Point2D) (scalar : ℝ) : Point2D := ⟨p.x * scalar, p.y * scalar⟩

/-- Embeds `Point2D.distance_to`. -/
noncomputable def Point2D.distance_to (p other : Point2D) : ℝ :=
  Real.sqrt ((p.x - other.x) ^ 2 + (p.y - other.y) ^ 2)

/-- Embeds `Point2D.rotate` (rotation of `p` by `angle_rad` about `center`;
the Python default `center=None` means the origin and every call site in the
sources passes a center explicitly or relies on that default). -/
noncomputable def Point2D.rotate (p : Point2D) (angle_rad : ℝ) (center : Point2D) : Point2D :=
  let translated := p.sub center
  let cos_a := Real.cos angle_rad
  let sin_a := Real.sin angle_rad
  let rotated : Point2D :=
    ⟨translated.x * cos_a - translated.y * sin_a,
     translated.x * sin_a + translated.y * cos_a⟩
  rotated.add center

/-- Embeds the `DotGrid` class state: `rows`, `cols`, `spacing` and the
precomputed `dots` matrix. -/
structure DotGrid where
  rows : ℤ
  cols : ℤ
  spacing : ℝ
  dots : List (List Point2D)

/-- Embeds `DotGrid.__init__` together with `DotGrid._generate_grid`:
`dots[i][j] = (j*spacing, i*spacing)` for `i in range(rows)`,
`j in range(cols)`.  No size validation is performed by the source. -/
noncomputable def mkDotGrid (rows cols : ℤ) (spacing : ℝ) : DotGrid :=
  { rows := rows, cols := cols, spacing := spacing,
    dots := (intRange rows).map fun (i : ℤ) => (intRange cols).map fun (j : ℤ) =>
      ⟨(j : ℝ) * spacing, (i : ℝ) * spacing⟩ }

/-- Embeds `DotGrid.get_dot`: bounds-checked lookup returning `None` out of
bounds. -/
noncomputable def DotGrid.get_dot (g : DotGrid) (row col : ℤ) : Option Point2D :=
  if 0 ≤ row ∧ row < g.rows ∧ 0 ≤ col ∧ col < g.cols then
    some ((g.dots.getD row.toNat []).getD col.toNat ⟨0, 0⟩)
  else none

/-- Embeds `DotGrid.get_all_dots`: all dots as a flat (row-major) list. -/
def DotGrid.get_all_dots (g : DotGrid) : List Point2D := g.dots.flatten

/-- Embeds the inner `for j in range(num_points)` loop of
`CurveGenerator.generate_loop_around_dots`: 20 points of a circular arc of
radius `curve_radius` around `dot`, with
`angle = start_angle + (end_angle - start_angle) * j / (num_points - 1)`. -/
noncomputable def arcPoints (dot : Point2D) (curve_radius start_angle end_angle : ℝ) :
    List Point2D :=
  (List.range 20).map fun (j : ℕ) =>
    let angle := start_angle + (end_angle - start_angle) * (j : ℝ) / (20 - 1)
    ⟨dot.x + curve_radius * Real.cos angle, dot.y + curve_radius * Real.sin angle⟩

/-- Embeds one iteration (index `i`) of the `enumerate(dot_positions)` loop in
`CurveGenerator.generate_loop_around_dots`: skip if the cell is out of
bounds, otherwise emit the arc, whose sweep is `(0, 2*pi)` unless a resolvable
successor exists, in which case it starts 90 degrees past the direction to the
next dot and spans 270 degrees. -/
noncomputable def loopIter (grid : DotGrid) (dot_positions : List (ℤ × ℤ))
    (curve_radius : ℝ) (i : ℕ) : List Point2D :=
  let cell := dot_positions.getD i (0, 0)
  match grid.get_dot cell.1 cell.2 with
  | none => []
  | some dot =>
    let sweep : ℝ × ℝ :=
      if i < dot_positions.length - 1 then
        let next_cell := dot_positions.getD (i + 1) (0, 0)
        match grid.get_dot next_cell.1 next_cell.2 with
        | none => (0, 2 * Real.pi)
        | some next_dot =>
          let dx := next_dot.x - dot.x
          let dy := next_dot.y - dot.y
          let angle_to_next := atan2 dy dx
          let start_angle := angle_to_next + Real.pi / 2
          (start_angle, start_angle + 3 * Real.pi / 2)
      else (0, 2 * Real.pi)
    arcPoints dot curve_radius sweep.1 sweep.2

/-- Embeds `CurveGenerator.generate_loop_around_dots` (the `CurveGenerator`
class only stores its grid, so the grid is passed explicitly). -/
noncomputable def generate_loop_around_dots (grid : DotGrid)
    (dot_positions : List (ℤ × ℤ)) (curve_radius : ℝ) : List Point2D :=
  if dot_positions = [] then []
  else (List.range dot_positions.length).flatMap (loopIter grid dot_positions curve_radius)

/-- Embeds `CurveGenerator.generate_spiral_pattern`:
`num_points = int(100 * turns)` samples with `t = i / num_points`,
`angle = t * turns * 2 * pi` and `r = radius * t`. -/
noncomputable def generate_spiral_pattern (center : Point2D) (radius turns : ℝ) :
    List Point2D :=
  let num_points : ℤ := pyInt (100 * turns)
  (List.range num_points.toNat).map fun (i : ℕ) =>
    let t : ℝ := (i : ℝ) / (num_points : ℝ)
    let angle := t * turns * 2 * Real.pi
    let r := radius * t
    ⟨center.x + r * Real.cos angle, center.y + r * Real.sin angle⟩

/-- Embeds `CurveGenerator.generate_petal_pattern`: 200 samples of the rose
curve `r = radius * |cos(k * t)|` with `k = num_petals / 2` (Python float
division of the integer petal count). -/
noncomputable def generate_petal_pattern (center : Point2D) (radius : ℝ)
    (num_petals : ℤ) : List Point2D :=
  (List.range 200).map fun (i : ℕ) =>
    let t : ℝ := (i : ℝ) / 200 * 2 * Real.pi
    let k : ℝ := (num_petals : ℝ) / 2
    let r := radius * |Real.cos (k * t)|
    ⟨center.x + r * Real.cos t, center.y + r * Real.sin t⟩

/-- Embeds the `SymmetryType` enum of `kolam_geometry.py`. -/
inductive SymmetryType where
  | ROTATIONAL_2
  | ROTATIONAL_4
  | ROTATIONAL_8
  | REFLECTIONAL_VERTICAL
  | REFLECTIONAL_HORIZONTAL
  | REFLECTIONAL_DIAGONAL
  | TRANSLATIONAL
  | POINT
deriving DecidableEq

/-- Embeds the `KolamType` enum of `kolam_geometry.py`. -/
inductive KolamType where
  | PULLI_KOLAM
  | KAMBI_KOLAM
  | SIKKU_KOLAM
  | CHIKKU_KOLAM
  | MARGAZHI_KOLAM
deriving DecidableEq

/-- The arithmetic mean of a point list; this is exactly the centroid
computation `sum(p.x)/len, sum(p.y)/len` inlined at the top of
`SymmetryAnalyzer.detect_symmetries` and of every recognizer test. -/
noncomputable def centroid (points : List Point2D) : Point2D :=
  ⟨(points.map Point2D.x).sum / points.length,
   (points.map Point2D.y).sum / points.length⟩

/-- Embeds `SymmetryAnalyzer._test_rotational_symmetry`: every point rotated
by `2*pi/fold` about `center` must be within `tolerance` of some original
point. -/
noncomputable def test_rotational_symmetry (points : List Point2D) (center : Point2D)
    (fold : ℤ) (tolerance : ℝ) : Prop :=
  let angle := 2 * Real.pi / (fold : ℝ)
  let rotated_points := points.map fun p => p.rotate angle center
  ∀ rp ∈ rotated_points, ∃ op ∈ points, rp.distance_to op < tolerance

/-- Embeds `SymmetryAnalyzer._test_reflection_symmetry`: reflect each point
through the centroid line of the named axis and run the same containment
test; an unknown axis name returns `False`. -/
noncomputable def test_reflection_symmetry (points : List Point2D) (center : Point2D)
    (axis : String) (tolerance : ℝ) : Prop :=
  if axis = "vertical" then
    let reflected_points := points.map fun p => Point2D.mk (2 * center.x - p.x) p.y
    ∀ rp ∈ reflected_points, ∃ op ∈ points, rp.distance_to op < tolerance
  else if axis = "horizontal" then
    let reflected_points := points.map fun p => Point2D.mk p.x (2 * center.y - p.y)
    ∀ rp ∈ reflected_points, ∃ op ∈ points, rp.distance_to op < tolerance
  else False

/-- Embeds `SymmetryAnalyzer.detect_symmetries`: empty input gives an empty
list, otherwise the folds 2, 4, 8 and the vertical/horizontal axes are tested
against the centroid (tolerance 0.1, the default used at every call site) and
the passing kinds are appended in that order. -/
noncomputable def detect_symmetries (points : List Point2D) : List SymmetryType :=
  if points = [] then []
  else
    let c := centroid points
    (if test_rotational_symmetry points c 2 0.1 then [SymmetryType.ROTATIONAL_2] else []) ++
    (if test_rotational_symmetry points c 4 0.1 then [SymmetryType.ROTATIONAL_4] else []) ++
    (if test_rotational_symmetry points c 8 0.1 then [SymmetryType.ROTATIONAL_8] else []) ++
    (if test_reflection_symmetry points c "vertical" 0.1 then
      [SymmetryType.REFLECTIONAL_VERTICAL] else []) ++
    (if test_reflection_symmetry points c "horizontal" 0.1 then
      [SymmetryType.REFLECTIONAL_HORIZONTAL] else [])

/-- Embeds `SymmetryAnalyzer.apply_symmetry`: rotational-4 appends the three
quarter-turn copies, the two reflection kinds append one mirrored copy, and
every other kind returns the input unchanged. -/
noncomputable def apply_symmetry (points : List Point2D) (center : Point2D)
    (symmetry_type : SymmetryType) : List Point2D :=
  match symmetry_type with
  | SymmetryType.ROTATIONAL_4 =>
      points ++ ([1, 2, 3] : List ℕ).flatMap fun i =>
        points.map fun p => p.rotate ((i : ℝ) * Real.pi / 2) center
  | SymmetryType.REFLECTIONAL_VERTICAL =>
      points ++ points.map fun p => Point2D.mk (2 * center.x - p.x) p.y
  | SymmetryType.REFLECTIONAL_HORIZONTAL =>
      points ++ points.map fun p => Point2D.mk p.x (2 * center.y - p.y)
  | _ => points

/-- Embeds the mutable state of the `KolamPattern` class: its name, its type,
an optional grid, the ordered curve list and the cached symmetry list (the
unused free-form `properties` dict of the source is not modelled). -/
structure KolamPattern where
  name : String
  kolam_type : KolamType
  grid : Option DotGrid
  curves : List (List Point2D)
  symmetries : List SymmetryType

/-- Embeds `KolamPattern.set_grid`. -/
noncomputable def KolamPattern.set_grid (p : KolamPattern) (rows cols : ℤ)
    (spacing : ℝ) : KolamPattern :=
  { p with grid := some (mkDotGrid rows cols spacing) }

/-- Embeds `KolamPattern.add_curve`. -/
def KolamPattern.add_curve (p : KolamPattern) (curve_points : List Point2D) :
    KolamPattern :=
  { p with curves := p.curves ++ [curve_points] }

/-- Embeds `KolamPattern.analyze_symmetries`: the symmetry field is updated
only when the union of all curve points (`all_points`) is non-empty; the
Python truthiness test `if all_points:` leaves the old cached value in place
otherwise. -/
noncomputable def KolamPattern.analyze_symmetries (p : KolamPattern) : KolamPattern :=
  let all_points := p.curves.flatten
  if all_points = [] then p
  else { p with symmetries := detect_symmetries all_points }

/-- Embeds `KolamPattern.get_bounding_box`.  An empty curve list returns
`((0,0), (0,0))`; otherwise Python computes `min`/`max` over the flattened
point list, which raises `ValueError` (modelled as `none`) when every curve is
empty. -/
noncomputable def KolamPattern.get_bounding_box (p : KolamPattern) :
    Option (Point2D × Point2D) :=
  if p.curves = [] then some (⟨0, 0⟩, ⟨0, 0⟩)
  else
    match p.curves.flatten with
    | [] => none
    | q :: qs =>
      some (⟨(qs.map Point2D.x).foldl min q.x, (qs.map Point2D.y).foldl min q.y⟩,
            ⟨(qs.map Point2D.x).foldl max q.x, (qs.map Point2D.y).foldl max q.y⟩)

/-- Embeds `PatternRecognizer._is_circular_pattern`: variance of the
centroid-relative distances must be below `(mean * 0.1)^2`. -/
noncomputable def is_circular_pattern (points : List Point2D) : Prop :=
  if points.length < 10 then False
  else
    let center := centroid points
    let distances := points.map fun p => p.distance_to center
    let avg_distance := distances.sum / (distances.length : ℝ)
    let variance := (distances.map fun d => (d - avg_distance) ^ 2).sum / (distances.length : ℝ)
    variance < (avg_distance * 0.1) ^ 2

/-- Embeds `PatternRecognizer._is_spiral_pattern`: total wrapped angular
progression above one full turn in magnitude, and the centroid distance
strictly increasing on more than 60 percent of consecutive pairs. -/
noncomputable def is_spiral_pattern (points : List Point2D) : Prop :=
  if points.length < 20 then False
  else
    let center := centroid points
    let angles := points.map fun p => atan2 (p.y - center.y) (p.x - center.x)
    let distances := points.map fun p => p.distance_to center
    let wrap : ℝ → ℝ := fun d =>
      if d > Real.pi then d - 2 * Real.pi
      else if d < -Real.pi then d + 2 * Real.pi
      else d
    let angle_progression :=
      ((List.range (points.length - 1)).map fun i =>
        wrap (angles.getD (i + 1) 0 - angles.getD i 0)).sum
    let distance_trend :=
      ((List.range (points.length - 1)).filter fun i =>
        decide (distances.getD (i + 1) 0 > distances.getD i 0)).length
    |angle_progression| > 2 * Real.pi ∧
      (distance_trend : ℝ) > (points.length : ℝ) * 0.6

/-- Embeds `PatternRecognizer._is_petal_pattern`: polar coordinates about the
centroid, sorted by angle (Python tuple sort is ascending lexicographic), and
at least 4 strict interior local maxima of the radius sequence. -/
noncomputable def is_petal_pattern (points : List Point2D) : Prop :=
  if points.length < 20 then False
  else
    let center := centroid points
    let polar_points := points.map fun p =>
      (atan2 (p.y - center.y) (p.x - center.x), p.distance_to center)
    let sorted := polar_points.mergeSort fun a b =>
      decide (a.1 < b.1 ∨ (a.1 = b.1 ∧ a.2 ≤ b.2))
    let radii := sorted.map Prod.snd
    let local_maxima :=
      ((List.range (radii.length - 2)).filter fun i =>
        decide (radii.getD (i + 1) 0 > radii.getD i 0 ∧
                radii.getD (i + 1) 0 > radii.getD (i + 2) 0)).length
    local_maxima ≥ 4

/-- Embeds `PatternRecognizer._is_linear_segment`: least-squares line fit with
the early exits for short segments, a vanishing normal-equation denominator
and vanishing total variance; otherwise `R^2 > 0.9`. -/
noncomputable def is_linear_segment (points : List Point2D) : Prop :=
  if points.length < 3 then True
  else
    let n : ℝ := points.length
    let sum_x := (points.map Point2D.x).sum
    let sum_y := (points.map Point2D.y).sum
    let sum_xy := (points.map fun p => p.x * p.y).sum
    let sum_x2 := (points.map fun p => p.x * p.x).sum
    let denom := n * sum_x2 - sum_x * sum_x
    if |denom| < (1e-10 : ℝ) then True
    else
      let slope := (n * sum_xy - sum_x * sum_y) / denom
      let intercept := (sum_y - slope * sum_x) / n
      let y_mean := sum_y / n
      let ss_tot := (points.map fun p => (p.y - y_mean) ^ 2).sum
      let ss_res := (points.map fun p => (p.y - (slope * p.x + intercept)) ^ 2).sum
      if ss_tot < (1e-10 : ℝ) then True
      else 1 - ss_res / ss_tot > 0.9

/-- Embeds `PatternRecognizer._has_linear_segments`: slide a 5-point window
(window starts `0 .. len - 6`, as in the source's `range(len - 5)`) and count
linear fits. -/
noncomputable def has_linear_segments (points : List Point2D) : Prop :=
  if points.length < 6 then False
  else
    let segment_length := 5
    let linear_segments :=
      ((List.range (points.length - segment_length)).filter fun i =>
        decide (is_linear_segment ((points.drop i).take segment_length))).length
    linear_segments > 0

/-- Embeds `PatternRecognizer.detect_curve_types`: `["simple"]` below 10
points, else the tags of the passing tests in the fixed order circular,
spiral, petal, linear, or `["complex"]` when none pass. -/
noncomputable def detect_curve_types (curve_points : List Point2D) : List String :=
  if curve_points.length < 10 then ["simple"]
  else
    let curve_types :=
      (if is_circular_pattern curve_points then ["circular"] else []) ++
      (if is_spiral_pattern curve_points then ["spiral"] else []) ++
      (if is_petal_pattern curve_points then ["petal"] else []) ++
      (if has_linear_segments curve_points then ["linear"] else [])
    if curve_types = [] then ["complex"] else curve_types

/-- Embeds `KolamGenerator.generate_pulli_kolam`: a fresh pattern on a
spacing-2.0 grid; the `"basic"` variant adds one loop per `(r, c)` with
`r in range(1, rows-1, 2)`, `c in range(1, cols-1, 2)` subject to the
(redundant) guard `r < rows-1 and c < cols-1`; the `"diamond"` variant grows
up to four-cell diamonds around the center, closing each back to its first
cell.  `analyze_symmetries` runs once at the end.  (The Python f-string name
is abbreviated to a constant; it has no behavioral role.) -/
noncomputable def generate_pulli_kolam (rows cols : ℤ) (dot_pattern : String) :
    KolamPattern :=
  let grid := mkDotGrid rows cols 2.0
  let curves : List (List Point2D) :=
    if dot_pattern = "basic" then
      (intRangeStep 1 (rows - 1) 2).flatMap fun r =>
        (intRangeStep 1 (cols - 1) 2).flatMap fun c =>
          if r < rows - 1 ∧ c < cols - 1 then
            [generate_loop_around_dots grid
              [(r, c), (r, c + 1), (r + 1, c + 1), (r + 1, c), (r, c)] 0.4]
          else []
    else if dot_pattern = "diamond" then
      let center_r := Int.fdiv rows 2
      let center_c := Int.fdiv cols 2
      (intRangeStep 1 (Int.fdiv (min rows cols) 2) 1).flatMap fun size =>
        let diamond_dots : List (ℤ × ℤ) :=
          (if center_r - size ≥ 0 then [(center_r - size, center_c)] else []) ++
          (if center_c + size < cols then [(center_r, center_c + size)] else []) ++
          (if center_r + size < rows then [(center_r + size, center_c)] else []) ++
          (if center_c - size ≥ 0 then [(center_r, center_c - size)] else [])
        match diamond_dots with
        | [] => []
        | d :: ds => [generate_loop_around_dots grid ((d :: ds) ++ [d]) 0.3]
    else []
  (KolamPattern.mk "Pulli Kolam" KolamType.PULLI_KOLAM (some grid) curves
    []).analyze_symmetries

/-- Modelled from the spec's wording of `loopAroundDots` for one cell: resolve
the cell (empty output when out of bounds); emit the 20-point arc, spanning
270 degrees from `atan2(dy,dx) + 90` degrees when a following cell resolves to
a dot, and a full 360-degree turn from angle 0 otherwise. -/
noncomputable def loopSpecArc (grid : DotGrid) (cell : ℤ × ℤ) (next : Option (ℤ × ℤ))
    (curve_radius : ℝ) : List Point2D :=
  match grid.get_dot cell.1 cell.2 with
  | none => []
  | some dot =>
    match next.bind fun nc => grid.get_dot nc.1 nc.2 with
    | some next_dot =>
      let start_angle := atan2 (next_dot.y - dot.y) (next_dot.x - dot.x) + Real.pi / 2
      arcPoints dot curve_radius start_angle (start_angle + 3 * Real.pi / 2)
    | none => arcPoints dot curve_radius 0 (2 * Real.pi)

/-- Modelled from the spec's wording of `loopAroundDots` over the whole cell
list: the concatenation, cell by cell in order, of the per-cell arcs, each
cell seeing its immediate successor. -/
noncomputable def loopSpec (grid : DotGrid) (curve_radius : ℝ) :
    List (ℤ × ℤ) → List Point2D
  | [] => []
  | [c] => loopSpecArc grid c none curve_radius
  | c :: c' :: rest =>
      loopSpecArc grid c (some c') curve_radius ++
        loopSpec grid curve_radius (c' :: rest)

lemma arcPoints_length (dot : Point2D) (r a b : ℝ) : (arcPoints dot r a b).length = 20 := by
  unfold arcPoints
  rw [List.length_map]
  exact List.length_range 20

lemma flatMap_range_succ_shift {α : Type} (f : ℕ → List α) (n : ℕ) :
    (List.range (n + 1)).flatMap f = f 0 ++ (List.range n).flatMap fun i => f (i + 1) := by
  rw [List.range_succ_eq_map, List.flatMap_cons, List.flatMap_map]

lemma loopIter_cons_succ (grid : DotGrid) (c : ℤ × ℤ) (rest : List (ℤ × ℤ))
    (r : ℝ) (i : ℕ) : loopIter grid (c :: rest) r (i + 1) = loopIter grid rest r i := by
  unfold loopIter
  simp only [List.getD_cons_succ, List.length_cons, Nat.add_sub_cancel,
    show (i + 1 < rest.length) ↔ (i < rest.length - 1) from by omega]

lemma loopIter_zero (grid : DotGrid) (c : ℤ × ℤ) (rest : List (ℤ × ℤ)) (r : ℝ) :
    loopIter grid (c :: rest) r 0 = loopSpecArc grid c rest.head? r := by
  cases rest with
  | nil =>
      unfold loopIter loopSpecArc
      simp only [List.getD_cons_zero, List.length_cons, List.length_nil,
        List.head?_nil, Option.none_bind,
        eq_false (show ¬ ((0 : ℕ) < 0 + 1 - 1) by omega), if_false]
  | cons c' t =>
      unfold loopIter loopSpecArc
      simp only [List.getD_cons_zero, List.getD_cons_succ, List.length_cons,
        List.head?_cons, Option.some_bind,
        eq_true (show (0 : ℕ) < t.length + 1 + 1 - 1 by omega), if_true]
      cases hn : grid.get_dot c'.1 c'.2 with
      | none => rfl
      | some nd => rfl

lemma gen_loop_eq_loopSpec (grid : DotGrid) (dps : List (ℤ × ℤ)) (r : ℝ) :
    generate_loop_around_dots grid dps r = loopSpec grid r dps := by
  induction dps with
  | nil => simp [generate_loop_around_dots, loopSpec]
  | cons c rest ih =>
      have hbody : generate_loop_around_dots grid (c :: rest) r
          = loopIter grid (c :: rest) r 0 ++
            (List.range rest.length).flatMap (loopIter grid rest r) := by
        unfold generate_loop_around_dots
        rw [if_neg (by simp)]
        rw [List.length_cons, flatMap_range_succ_shift]
        congr 1
        exact List.flatMap_congr fun i _ => loopIter_cons_succ grid c rest r i
      cases rest with
      | nil =>
          rw [hbody]
          simp [loopIter_zero, loopSpec]
      | cons c' t =>
          rw [hbody, loopIter_zero]
          have htail : (List.range (c' :: t).length).flatMap (loopIter grid (c' :: t) r)
              = generate_loop_around_dots grid (c' :: t) r := by
            unfold generate_loop_around_dots
            rw [if_neg (by simp)]
          rw [htail, ih]
          rfl

lemma loopSpec_cons (grid : DotGrid) (r : ℝ) (c : ℤ × ℤ) (rest : List (ℤ × ℤ)) :
    loopSpec grid r (c :: rest) = loopSpecArc grid c rest.head? r ++ loopSpec grid r rest := by
  cases rest with
  | nil => simp [loopSpec]
  | cons c' t => rfl

lemma loopSpecArc_length (grid : DotGrid) (c : ℤ × ℤ) (next : Option (ℤ × ℤ)) (r : ℝ) :
    (loopSpecArc grid c next r).length =
      if (grid.get_dot c.1 c.2).isSome then 20 else 0 := by
  unfold loopSpecArc
  cases grid.get_dot c.1 c.2 with
  | none => rfl
  | some dot =>
      cases next.bind fun nc => grid.get_dot nc.1 nc.2 with
      | none => simp [arcPoints_length]
      | some nd => simp [arcPoints_length]

lemma loopSpec_length (grid : DotGrid) (r : ℝ) (dps : List (ℤ × ℤ)) :
    (loopSpec grid r dps).length =
      20 * dps.countP fun cell => (grid.get_dot cell.1 cell.2).isSome := by
  induction dps with
  | nil => simp [loopSpec]
  | cons c rest ih =>
      rw [loopSpec_cons, List.length_append, ih, loopSpecArc_length,
        List.countP_cons]
      by_cases h : (grid.get_dot c.1 c.2).isSome
      · simp [h]
        ring
      · simp [h]

/-- C6: loopAroundDots emits, per in-bounds cell in order, exactly 20 points
of a circular arc around that cell's dot, silently skipping out-of-bounds
cells; with a resolvable following cell the arc spans 270 degrees starting at
`atan2(dy,dx) + 90` degrees toward the next dot, and otherwise (in particular
for the final cell) it sweeps a full 360 degrees starting at angle 0. -/
theorem loopAroundDots_per_cell_arcs (grid : DotGrid) (dps : List (ℤ × ℤ)) (r : ℝ) :
    generate_loop_around_dots grid dps r = loopSpec grid r dps ∧
    (generate_loop_around_dots grid dps r).length =
      20 * dps.countP fun cell => (grid.get_dot cell.1 cell.2).isSome :=
  ⟨gen_loop_eq_loopSpec grid dps r, by
    rw [gen_loop_eq_loopSpec grid dps r]
    exact loopSpec_length grid r dps⟩

lemma loopSpecArc_resolved_oob (grid : DotGrid) (c c' : ℤ × ℤ) (r : ℝ) (d : Point2D)
    (hc : grid.get_dot c.1 c.2 = some d) (hc' : grid.get_dot c'.1 c'.2 = none) :
    loopSpecArc grid c (some c') r = arcPoints d r 0 (2 * Real.pi) := by
  unfold loopSpecArc
  rw [hc]
  simp [hc']

/-- C10: when a cell has a successor in the input list but that successor
resolves out of the grid bounds, the current cell's arc falls back to the full
360-degree sweep starting at angle 0 (as for a final cell), not the directed
270-degree sweep. -/
theorem loopAroundDots_oob_successor_full_turn (grid : DotGrid) (c c' : ℤ × ℤ)
    (rest : List (ℤ × ℤ)) (r : ℝ) (d : Point2D)
    (hc : grid.get_dot c.1 c.2 = some d) (hc' : grid.get_dot c'.1 c'.2 = none) :
    generate_loop_around_dots grid (c :: c' :: rest) r =
      arcPoints d r 0 (2 * Real.pi) ++ generate_loop_around_dots grid (c' :: rest) r := by
  rw [gen_loop_eq_loopSpec, gen_loop_eq_loopSpec, loopSpec_cons, List.head?_cons,
    loopSpecArc_resolved_oob grid c c' r d hc hc']

/-- Witness for C10 on a concrete 1x1 grid: cell (0,0) resolves, its listed
successor (1,1) does not, so the first arc is the full turn. -/
theorem loopAroundDots_oob_successor_full_turn_witness :
    generate_loop_around_dots ⟨1, 1, 1, [[⟨0, 0⟩]]⟩ [((0 : ℤ), (0 : ℤ)), (1, 1)] 1 =
      arcPoints ⟨0, 0⟩ 1 0 (2 * Real.pi) ++
        generate_loop_around_dots ⟨1, 1, 1, [[⟨0, 0⟩]]⟩ [((1 : ℤ), (1 : ℤ))] 1 :=
  loopAroundDots_oob_successor_full_turn ⟨1, 1, 1, [[⟨0, 0⟩]]⟩ (0, 0) (1, 1) [] 1 ⟨0, 0⟩
    (by norm_num [DotGrid.get_dot]) (by norm_num [DotGrid.get_dot])

lemma mkDotGrid_nonpos_rows (rows cols : ℤ) (s : ℝ) (h : rows ≤ 0) :
    (mkDotGrid rows cols s).dots = [] := by
  unfold mkDotGrid intRange
  simp [Int.toNat_of_nonpos h]

/-- C2 counterexample: constructing a DotGrid with `rows = 0` does not fail;
it silently yields a grid object whose dot matrix is empty. -/
theorem dotgrid_zero_rows_constructs_empty :
    (mkDotGrid 0 5 1).rows = 0 ∧ (mkDotGrid 0 5 1).cols = 5 ∧
      (mkDotGrid 0 5 1).dots = [] :=
  ⟨rfl, rfl, rfl⟩

/-- C2 amended: constructing a DotGrid with `rows ≤ 0` or `cols ≤ 0` raises
nothing (there is no InvalidGridSize anywhere in the code); it silently
produces a grid containing no dots at all. -/
theorem dotgrid_nonpositive_silently_empty (rows cols : ℤ) (s : ℝ)
    (h : rows ≤ 0 ∨ cols ≤ 0) : (mkDotGrid rows cols s).get_all_dots = [] := by
  rcases h with h | h
  · rw [DotGrid.get_all_dots, mkDotGrid_nonpos_rows rows cols s h]
    rfl
  · unfold DotGrid.get_all_dots mkDotGrid intRange
    simp [Int.toNat_of_nonpos h]

/-- Witness for the amended C2 at `rows = 0`. -/
theorem dotgrid_nonpositive_silently_empty_witness :
    (mkDotGrid 0 5 1).get_all_dots = [] :=
  dotgrid_nonpositive_silently_empty 0 5 1 (Or.inl le_rfl)

lemma analyze_symmetries_curves (p : KolamPattern) :
    p.analyze_symmetries.curves = p.curves := by
  simp only [KolamPattern.analyze_symmetries]
  split
  · rfl
  · rfl

lemma pulli_5x5_basic_curves :
    (generate_pulli_kolam 5 5 "basic").curves =
      [generate_loop_around_dots (mkDotGrid 5 5 2.0) [(1, 1), (1, 2), (2, 2), (2, 1), (1, 1)] 0.4,
       generate_loop_around_dots (mkDotGrid 5 5 2.0) [(1, 3), (1, 4), (2, 4), (2, 3), (1, 3)] 0.4,
       generate_loop_around_dots (mkDotGrid 5 5 2.0) [(3, 1), (3, 2), (4, 2), (4, 1), (3, 1)] 0.4,
       generate_loop_around_dots (mkDotGrid 5 5 2.0) [(3, 3), (3, 4), (4, 4), (4, 3), (3, 3)] 0.4] := by
  unfold generate_pulli_kolam
  rw [analyze_symmetries_curves]
  have hstep : intRangeStep 1 4 2 = [1, 3] := by decide
  norm_num [hstep, List.flatMap_cons, List.flatMap_nil]

/-- C1 counterexample: `generate_pulli_kolam(5, 5, "basic")` produces four
curves (anchors (1,1), (1,3), (3,1), (3,3)), not exactly one. -/
theorem pulli_basic_5x5_not_one_curve :
    ¬ (generate_pulli_kolam 5 5 "basic").curves.length = 1 := by
  rw [pulli_5x5_basic_curves]
  simp

/-- C1 amended: the basic 5x5 dot-loop pattern contains exactly the four
2x2-block loops whose starting row and column are odd and below `rows - 1`
and `cols - 1`, namely the blocks anchored at (1,1), (1,3), (3,1) and (3,3),
so the curve list has length 4 (not 1). -/
theorem pulli_basic_5x5_four_loops :
    (generate_pulli_kolam 5 5 "basic").curves =
      [generate_loop_around_dots (mkDotGrid 5 5 2.0) [(1, 1), (1, 2), (2, 2), (2, 1), (1, 1)] 0.4,
       generate_loop_around_dots (mkDotGrid 5 5 2.0) [(1, 3), (1, 4), (2, 4), (2, 3), (1, 3)] 0.4,
       generate_loop_around_dots (mkDotGrid 5 5 2.0) [(3, 1), (3, 2), (4, 2), (4, 1), (3, 1)] 0.4,
       generate_loop_around_dots (mkDotGrid 5 5 2.0) [(3, 3), (3, 4), (4, 4), (4, 3), (3, 3)] 0.4] ∧
    (generate_pulli_kolam 5 5 "basic").curves.length = 4 := by
  refine ⟨pulli_5x5_basic_curves, ?_⟩
  rw [pulli_5x5_basic_curves]
  rfl

lemma foldl_min_le_init (l : List ℝ) (a : ℝ) : l.foldl min a ≤ a := by
  induction l generalizing a with
  | nil => exact le_rfl
  | cons b t ih => exact le_trans (ih (min a b)) (min_le_left a b)

lemma foldl_min_le_mem (l : List ℝ) (a x : ℝ) (h : x ∈ l) : l.foldl min a ≤ x := by
  induction l generalizing a with
  | nil => cases h
  | cons b t ih =>
      rcases List.mem_cons.mp h with rfl | hx
      · exact le_trans (foldl_min_le_init t (min a x)) (min_le_right a x)
      · exact ih (min a b) hx

lemma le_foldl_max_init (l : List ℝ) (a : ℝ) : a ≤ l.foldl max a := by
  induction l generalizing a with
  | nil => exact le_rfl
  | cons b t ih => exact le_trans (le_max_left a b) (ih (max a b))

lemma le_foldl_max_mem (l : List ℝ) (a x : ℝ) (h : x ∈ l) : x ≤ l.foldl max a := by
  induction l generalizing a with
  | nil => cases h
  | cons b t ih =>
      rcases List.mem_cons.mp h with rfl | hx
      · exact le_trans (le_max_right a x) (le_foldl_max_init t (max a x))
      · exact ih (max a b) hx

/-- C3 counterexample: a pattern holding a single degenerate (0-point) curve
makes `get_bounding_box` reach `min()` over an empty sequence, which raises
`ValueError` in Python (`none` in the model) rather than returning a box. -/
theorem bounding_box_all_empty_curves_raises :
    (KolamPattern.mk "" KolamType.PULLI_KOLAM none [[]] []).get_bounding_box = none := by
  unfold KolamPattern.get_bounding_box
  rw [if_neg (show ¬ ([[]] : List (List Point2D)) = [] by simp)]
  rfl

lemma foldl_min_mem (l : List ℝ) (a : ℝ) : l.foldl min a ∈ a :: l := by
  induction l generalizing a with
  | nil => simp
  | cons b t ih =>
      have h := ih (min a b)
      rcases List.mem_cons.mp h with he | ht
      · rcases min_choice a b with hab | hab
        · rw [List.foldl_cons, he, hab]
          exact List.mem_cons_self a (b :: t)
        · rw [List.foldl_cons, he, hab]
          exact List.mem_cons.mpr (Or.inr (List.mem_cons_self b t))
      · exact List.mem_cons.mpr (Or.inr (List.mem_cons.mpr (Or.inr ht)))

lemma foldl_max_mem (l : List ℝ) (a : ℝ) : l.foldl max a ∈ a :: l := by
  induction l generalizing a with
  | nil => simp
  | cons b t ih =>
      have h := ih (max a b)
      rcases List.mem_cons.mp h with he | ht
      · rcases max_choice a b with hab | hab
        · rw [List.foldl_cons, he, hab]
          exact List.mem_cons_self a (b :: t)
        · rw [List.foldl_cons, he, hab]
          exact List.mem_cons.mpr (Or.inr (List.mem_cons_self b t))
      · exact List.mem_cons.mpr (Or.inr (List.mem_cons.mpr (Or.inr ht)))

/-- C3 amended: `get_bounding_box` returns `((0,0), (0,0))` for an empty
curve list, and whenever at least one point exists across the curves (so
single-point curves are fine) it returns exactly the componentwise min/max:
each returned coordinate bounds every point and is attained by some point.
But it raises (`none` in the model) when the curve list is non-empty yet
every curve has zero points. -/
theorem bounding_box_characterization (p : KolamPattern) :
    (p.curves = [] → p.get_bounding_box = some (⟨0, 0⟩, ⟨0, 0⟩)) ∧
    (p.curves ≠ [] → p.curves.flatten = [] → p.get_bounding_box = none) ∧
    (p.curves.flatten ≠ [] → ∃ lo hi, p.get_bounding_box = some (lo, hi) ∧
      (∀ q ∈ p.curves.flatten, lo.x ≤ q.x ∧ q.x ≤ hi.x ∧ lo.y ≤ q.y ∧ q.y ≤ hi.y) ∧
      (∃ q ∈ p.curves.flatten, lo.x = q.x) ∧ (∃ q ∈ p.curves.flatten, hi.x = q.x) ∧
      (∃ q ∈ p.curves.flatten, lo.y = q.y) ∧ (∃ q ∈ p.curves.flatten, hi.y = q.y)) := by
  refine ⟨fun hc => ?_, fun hc hfl => ?_, fun hfl => ?_⟩
  · unfold KolamPattern.get_bounding_box
    rw [if_pos hc]
  · unfold KolamPattern.get_bounding_box
    rw [if_neg hc, hfl]
  · have hc : p.curves ≠ [] := by
      intro hc
      exact hfl (by rw [hc]; rfl)
    obtain ⟨q, qs, hql⟩ := List.exists_cons_of_ne_nil hfl
    have hmem_of : ∀ (f : Point2D → ℝ) (v : ℝ), v ∈ q.x :: qs.map f → f q = q.x →
        ∃ r ∈ p.curves.flatten, v = f r := by
      intro f v hv hfq
      rw [hql]
      rcases List.mem_cons.mp hv with he | hm
      · exact ⟨q, List.mem_cons_self q qs, by rw [he, hfq]⟩
      · obtain ⟨r, hr, hre⟩ := List.mem_map.mp hm
        exact ⟨r, List.mem_cons.mpr (Or.inr hr), hre.symm⟩
    refine ⟨⟨(qs.map Point2D.x).foldl min q.x, (qs.map Point2D.y).foldl min q.y⟩,
            ⟨(qs.map Point2D.x).foldl max q.x, (qs.map Point2D.y).foldl max q.y⟩,
            ?_, ?_, ?_, ?_, ?_, ?_⟩
    · unfold KolamPattern.get_bounding_box
      rw [if_neg hc, hql]
    · intro r hr
      rw [hql] at hr
      rcases List.mem_cons.mp hr with rfl | hr
      · exact ⟨foldl_min_le_init _ _, le_foldl_max_init _ _,
          foldl_min_le_init _ _, le_foldl_max_init _ _⟩
      · exact ⟨foldl_min_le_mem _ _ _ (List.mem_map_of_mem Point2D.x hr),
          le_foldl_max_mem _ _ _ (List.mem_map_of_mem Point2D.x hr),
          foldl_min_le_mem _ _ _ (List.mem_map_of_mem Point2D.y hr),
          le_foldl_max_mem _ _ _ (List.mem_map_of_mem Point2D.y hr)⟩
    · exact hmem_of Point2D.x _ (foldl_min_mem (qs.map Point2D.x) q.x) rfl
    · exact hmem_of Point2D.x _ (foldl_max_mem (qs.map Point2D.x) q.x) rfl
    · have hy := foldl_min_mem (qs.map Point2D.y) q.y
      rw [hql]
      rcases List.mem_cons.mp hy with he | hm
      · exact ⟨q, List.mem_cons_self q qs, he⟩
      · obtain ⟨r, hr, hre⟩ := List.mem_map.mp hm
        exact ⟨r, List.mem_cons.mpr (Or.inr hr), hre.symm⟩
    · have hy := foldl_max_mem (qs.map Point2D.y) q.y
      rw [hql]
      rcases List.mem_cons.mp hy with he | hm
      · exact ⟨q, List.mem_cons_self q qs, he⟩
      · obtain ⟨r, hr, hre⟩ := List.mem_map.mp hm
        exact ⟨r, List.mem_cons.mpr (Or.inr hr), hre.symm⟩

/-- Witness for the amended C3 on a pattern holding the single point
`(5, -3)`: the box exists, bounds that point, and all four box coordinates
are attained. -/
theorem bounding_box_characterization_witness :
    ∃ lo hi,
      (KolamPattern.mk "" KolamType.PULLI_KOLAM none [[⟨5, -3⟩]] []).get_bounding_box
        = some (lo, hi) ∧
      (∀ q ∈ ([[(⟨5, -3⟩ : Point2D)]] : List (List Point2D)).flatten,
        lo.x ≤ q.x ∧ q.x ≤ hi.x ∧ lo.y ≤ q.y ∧ q.y ≤ hi.y) ∧
      (∃ q ∈ ([[(⟨5, -3⟩ : Point2D)]] : List (List Point2D)).flatten, lo.x = q.x) ∧
      (∃ q ∈ ([[(⟨5, -3⟩ : Point2D)]] : List (List Point2D)).flatten, hi.x = q.x) ∧
      (∃ q ∈ ([[(⟨5, -3⟩ : Point2D)]] : List (List Point2D)).flatten, lo.y = q.y) ∧
      (∃ q ∈ ([[(⟨5, -3⟩ : Point2D)]] : List (List Point2D)).flatten, hi.y = q.y) :=
  (bounding_box_characterization
    (KolamPattern.mk "" KolamType.PULLI_KOLAM none [[⟨5, -3⟩]] [])).2.2 (by simp)

lemma distance_to_lt_of_eq (u v : Point2D) (hx : u.x = v.x) (hy : u.y = v.y) :
    u.distance_to v < 0.1 := by
  unfold Point2D.distance_to
  rw [hx, hy]
  simp
  norm_num

lemma sum_map_sub_const (l : List Point2D) (a : ℝ) (f : Point2D → ℝ) :
    (l.map fun p => a - f p).sum = l.length * a - (l.map f).sum := by
  induction l with
  | nil => simp
  | cons b t ih =>
      simp only [List.map_cons, List.sum_cons, List.length_cons, ih]
      push_cast
      ring

/-- The x-coordinate of the centroid of a point set united with its
vertical-axis mirror image about `center` is exactly `center.x`. -/
lemma centroid_append_vreflect_x (points : List Point2D) (center : Point2D)
    (h : points ≠ []) :
    (centroid (points ++ points.map fun p => Point2D.mk (2 * center.x - p.x) p.y)).x
      = center.x := by
  unfold centroid
  have hlen : (points.length : ℝ) ≠ 0 :=
    Nat.cast_ne_zero.mpr (List.length_pos_of_ne_nil h).ne'
  simp only [List.map_append, List.map_map, List.sum_append, List.length_append,
    List.length_map]
  have hcomp : (points.map (Point2D.x ∘ fun p => Point2D.mk (2 * center.x - p.x) p.y))
      = points.map fun p => 2 * center.x - p.x := by
    simp [Function.comp]
  rw [hcomp, sum_map_sub_const]
  field_simp
  ring

lemma vertical_test_mem_detect (points : List Point2D) (h : points ≠ [])
    (hV : test_reflection_symmetry points (centroid points) "vertical" 0.1) :
    SymmetryType.REFLECTIONAL_VERTICAL ∈ detect_symmetries points := by
  unfold detect_symmetries
  rw [if_neg h]
  simp [hV]

/-- C5 counterexample: the round-trip fails on the empty point list, which
the claim's universal quantification includes: `apply([], center, Vertical)`
returns `[]`, and the detector's empty-input early return yields the empty
symmetry list, which does not contain the vertical axis. -/
theorem detect_apply_vertical_empty_not_detected :
    SymmetryType.REFLECTIONAL_VERTICAL ∉
      detect_symmetries
        (apply_symmetry [] ⟨0, 0⟩ SymmetryType.REFLECTIONAL_VERTICAL) := by
  have h1 : apply_symmetry [] (⟨0, 0⟩ : Point2D) SymmetryType.REFLECTIONAL_VERTICAL
      = [] := rfl
  rw [h1]
  unfold detect_symmetries
  rw [if_pos rfl]
  exact List.not_mem_nil _

/-- C5 amended: symmetrizing any non-empty point set with the vertical-axis operation
always produces a point set that the detector re-classifies as having the
vertical reflection axis. -/
theorem detect_apply_vertical_roundtrip (points : List Point2D) (center : Point2D)
    (h : points ≠ []) :
    SymmetryType.REFLECTIONAL_VERTICAL ∈
      detect_symmetries
        (apply_symmetry points center SymmetryType.REFLECTIONAL_VERTICAL) := by
  have happly : apply_symmetry points center SymmetryType.REFLECTIONAL_VERTICAL
      = points ++ points.map fun p => Point2D.mk (2 * center.x - p.x) p.y := rfl
  rw [happly]
  set all := points ++ points.map fun p => Point2D.mk (2 * center.x - p.x) p.y with hall
  have hne : all ≠ [] := by
    rw [hall]
    intro hcontra
    exact h (List.append_eq_nil.mp hcontra).1
  have hcx : (centroid all).x = center.x := centroid_append_vreflect_x points center h
  apply vertical_test_mem_detect all hne
  have hgoal : ∀ rp ∈ all.map fun p => Point2D.mk (2 * (centroid all).x - p.x) p.y,
      ∃ op ∈ all, rp.distance_to op < 0.1 := by
    intro rp hrp
    obtain ⟨p, hp, hrpe⟩ := List.mem_map.mp hrp
    rcases List.mem_append.mp hp with hporig | hpmap
    · refine ⟨Point2D.mk (2 * center.x - p.x) p.y, ?_, ?_⟩
      · exact List.mem_append.mpr (Or.inr (List.mem_map.mpr ⟨p, hporig, rfl⟩))
      · rw [← hrpe]
        refine distance_to_lt_of_eq _ _ ?_ rfl
        show 2 * (centroid all).x - p.x = 2 * center.x - p.x
        rw [hcx]
    · obtain ⟨p₀, hp₀, hpe⟩ := List.mem_map.mp hpmap
      refine ⟨p₀, List.mem_append.mpr (Or.inl hp₀), ?_⟩
      rw [← hrpe, ← hpe]
      refine distance_to_lt_of_eq _ _ ?_ rfl
      show 2 * (centroid all).x - (2 * center.x - p₀.x) = p₀.x
      rw [hcx]
      ring
  unfold test_reflection_symmetry
  rw [if_pos rfl]
  exact hgoal

/-- Witness for C5 on the single point `(0, 0)` with center `(1, 1)`. -/
theorem detect_apply_vertical_roundtrip_witness :
    SymmetryType.REFLECTIONAL_VERTICAL ∈
      detect_symmetries
        (apply_symmetry [⟨0, 0⟩] ⟨1, 1⟩ SymmetryType.REFLECTIONAL_VERTICAL) :=
  detect_apply_vertical_roundtrip [⟨0, 0⟩] ⟨1, 1⟩ (by simp)

lemma detect_single_ne_nil (q : Point2D) : detect_symmetries [q] ≠ [] := by
  refine List.ne_nil_of_mem (vertical_test_mem_detect [q] (by simp) ?_)
  have hc : (centroid [q]).x = q.x := by simp [centroid]
  have hgoal : ∀ rp ∈ [q].map fun p => Point2D.mk (2 * (centroid [q]).x - p.x) p.y,
      ∃ op ∈ [q], rp.distance_to op < 0.1 := by
    intro rp hrp
    simp only [List.map_cons, List.map_nil, List.mem_singleton] at hrp
    subst hrp
    refine ⟨q, by simp, distance_to_lt_of_eq _ _ ?_ rfl⟩
    show 2 * (centroid [q]).x - q.x = q.x
    rw [hc]
    ring
  unfold test_reflection_symmetry
  rw [if_pos rfl]
  exact hgoal

lemma analyze_symmetries_of_empty (p : KolamPattern) (h : p.curves.flatten = []) :
    p.analyze_symmetries = p := by
  simp only [KolamPattern.analyze_symmetries]
  rw [if_pos h]

lemma analyze_symmetries_of_ne_empty (p : KolamPattern) (h : p.curves.flatten ≠ []) :
    p.analyze_symmetries = { p with symmetries := detect_symmetries p.curves.flatten } := by
  simp only [KolamPattern.analyze_symmetries]
  rw [if_neg h]

/-- A pattern first analyzed with a one-point curve, then mutated so that its
only curve has zero points, and re-analyzed. -/
noncomputable def staleDemoPattern : KolamPattern :=
  ({ (KolamPattern.mk "" KolamType.PULLI_KOLAM none [[⟨0, 0⟩]] []).analyze_symmetries
      with curves := [[]] } : KolamPattern).analyze_symmetries

/-- C4 counterexample: after re-invoking `analyze_symmetries` on a pattern
whose curves now contain zero points, the `symmetries` field keeps its stale
non-empty value instead of the detector's result on the (empty) point union,
because `analyze_symmetries` skips the update when `all_points` is empty. -/
theorem analyze_symmetries_stale_on_empty :
    staleDemoPattern.symmetries ≠ detect_symmetries staleDemoPattern.curves.flatten := by
  have hfl1 : ([[(⟨0, 0⟩ : Point2D)]] : List (List Point2D)).flatten = [⟨0, 0⟩] := by simp
  have hp1 : (KolamPattern.mk "" KolamType.PULLI_KOLAM none [[⟨0, 0⟩]] []).analyze_symmetries
      = { KolamPattern.mk "" KolamType.PULLI_KOLAM none [[⟨0, 0⟩]] [] with
          symmetries := detect_symmetries [⟨0, 0⟩] } := by
    rw [analyze_symmetries_of_ne_empty _ (by simp [hfl1])]
    simp [hfl1]
  have hstale : staleDemoPattern
      = { (KolamPattern.mk "" KolamType.PULLI_KOLAM none [[⟨0, 0⟩]] []).analyze_symmetries
          with curves := [[]] } := by
    unfold staleDemoPattern
    exact analyze_symmetries_of_empty _ (by simp)
  have hsym : staleDemoPattern.symmetries = detect_symmetries [⟨0, 0⟩] := by
    rw [hstale, hp1]
  have hcur : staleDemoPattern.curves = [[]] := by rw [hstale]
  rw [hsym, hcur]
  simp only [List.flatten, List.append_nil]
  rw [show detect_symmetries [] = [] from by rw [detect_symmetries, if_pos rfl]]
  exact detect_single_ne_nil ⟨0, 0⟩

/-- C4 amended: after invoking `analyze_symmetries`, the `symmetries` field
equals the detector's result on the union of all points of the current curves
whenever that union is non-empty; when the union is empty (for instance when
every curve has zero points) the invocation leaves the whole pattern, and in
particular its previously cached `symmetries` value, unchanged. -/
theorem analyze_symmetries_cached_update (p : KolamPattern) :
    (p.curves.flatten ≠ [] →
      p.analyze_symmetries.symmetries = detect_symmetries p.curves.flatten) ∧
    (p.curves.flatten = [] → p.analyze_symmetries = p) :=
  ⟨fun h => by rw [analyze_symmetries_of_ne_empty p h],
   fun h => analyze_symmetries_of_empty p h⟩

/-- Witness for the amended C4 on a one-curve, one-point pattern. -/
theorem analyze_symmetries_cached_update_witness :
    (KolamPattern.mk "" KolamType.PULLI_KOLAM none [[⟨0, 0⟩]] []).analyze_symmetries.symmetries
      = detect_symmetries ([[(⟨0, 0⟩ : Point2D)]] : List (List Point2D)).flatten :=
  (analyze_symmetries_cached_update
    (KolamPattern.mk "" KolamType.PULLI_KOLAM none [[⟨0, 0⟩]] [])).1 (by simp)

lemma getD_map_range {α : Type} (n : ℕ) (f : ℕ → α) (i : ℕ) (d : α) (h : i < n) :
    ((List.range n).map f).getD i d = f i := by
  rw [List.getD_eq_getElem?_getD, List.getElem?_map, List.getElem?_range h]
  rfl

lemma distance_polar (c : Point2D) (ρ θ : ℝ) (h : 0 ≤ ρ) :
    (Point2D.mk (c.x + ρ * Real.cos θ) (c.y + ρ * Real.sin θ)).distance_to c = ρ := by
  unfold Point2D.distance_to
  have hsq : (c.x + ρ * Real.cos θ - c.x) ^ 2 + (c.y + ρ * Real.sin θ - c.y) ^ 2
      = ρ ^ 2 := by
    have : (c.x + ρ * Real.cos θ - c.x) ^ 2 + (c.y + ρ * Real.sin θ - c.y) ^ 2
        = ρ ^ 2 * (Real.cos θ ^ 2 + Real.sin θ ^ 2) := by ring
    rw [this, Real.cos_sq_add_sin_sq, mul_one]
  rw [hsq]
  exact Real.sqrt_sq h

/-- C7 counterexample: at `turns = 1.009` the source emits
`int(100 * turns) = 100` samples while the claimed `round(100 * turns)` is
101; the sample count truncates, it does not round. -/
theorem spiral_count_truncates_not_rounds :
    (generate_spiral_pattern ⟨0, 0⟩ 1 (1009 / 1000)).length = 100 ∧
    round ((100 : ℝ) * (1009 / 1000)) = 101 ∧
    ¬ ((generate_spiral_pattern ⟨0, 0⟩ 1 (1009 / 1000)).length : ℤ)
        = round ((100 : ℝ) * (1009 / 1000)) := by
  have hpy : pyInt ((100 : ℝ) * (1009 / 1000)) = 100 := by
    unfold pyInt
    rw [if_pos (by norm_num)]
    norm_num
  have hlen : (generate_spiral_pattern ⟨0, 0⟩ 1 (1009 / 1000)).length = 100 := by
    unfold generate_spiral_pattern
    rw [List.length_map, hpy]
    exact List.length_range 100
  have hround : round ((100 : ℝ) * (1009 / 1000)) = 101 := by norm_num [round_eq]
  refine ⟨hlen, hround, ?_⟩
  rw [hlen, hround]
  norm_num

/-- C7 amended: `spiral(center, radius, turns)` produces exactly
`int(100*turns)` samples (truncation, not rounding), the i-th sample sitting
at angle `(i/n)*turns*2*pi` and distance `radius*i/n` from the center; in
particular the first sample is at distance 0 and the last at distance
`radius*(n-1)/n`, approximately `radius`, with total angular parameter
progression `((n-1)/n)*turns*2*pi`, approximately `turns*2*pi`. -/
theorem spiral_truncated_count_and_endpoints (center : Point2D) (radius turns : ℝ)
    (hr : 0 < radius) (ht : 0 < turns) :
    ∃ n : ℕ, (n : ℤ) = pyInt (100 * turns) ∧
      (generate_spiral_pattern center radius turns).length = n ∧
      (∀ i < n, (generate_spiral_pattern center radius turns).getD i ⟨0, 0⟩
        = ⟨center.x + radius * ((i : ℝ) / n) *
              Real.cos (((i : ℝ) / n) * turns * 2 * Real.pi),
           center.y + radius * ((i : ℝ) / n) *
              Real.sin (((i : ℝ) / n) * turns * 2 * Real.pi)⟩) ∧
      (∀ i < n, ((generate_spiral_pattern center radius turns).getD i ⟨0, 0⟩).distance_to
          center = radius * (i : ℝ) / n) ∧
      (0 < n → ((generate_spiral_pattern center radius turns).getD 0 ⟨0, 0⟩).distance_to
          center = 0) ∧
      (0 < n → ((generate_spiral_pattern center radius turns).getD (n - 1)
          ⟨0, 0⟩).distance_to center = radius * ((n : ℝ) - 1) / n) := by
  have hnn : 0 ≤ pyInt (100 * turns) := by
    unfold pyInt
    rw [if_pos (by positivity)]
    positivity
  refine ⟨(pyInt (100 * turns)).toNat, Int.toNat_of_nonneg hnn, ?_, ?_, ?_, ?_, ?_⟩
  · unfold generate_spiral_pattern
    rw [List.length_map]
    exact List.length_range _
  · intro i hi
    unfold generate_spiral_pattern
    rw [getD_map_range _ _ _ _ hi]
    have hcast : (((pyInt (100 * turns) : ℤ) : ℝ))
        = (((pyInt (100 * turns)).toNat : ℕ) : ℝ) := by
      exact_mod_cast (congrArg (fun z : ℤ => (z : ℝ)) (Int.toNat_of_nonneg hnn)).symm
    rw [hcast]
  · intro i hi
    unfold generate_spiral_pattern
    rw [getD_map_range _ _ _ _ hi]
    have hcast : (((pyInt (100 * turns) : ℤ) : ℝ))
        = (((pyInt (100 * turns)).toNat : ℕ) : ℝ) := by
      exact_mod_cast (congrArg (fun z : ℤ => (z : ℝ)) (Int.toNat_of_nonneg hnn)).symm
    show (Point2D.mk _ _).distance_to center = _
    rw [hcast]
    have hρ : 0 ≤ radius * ((i : ℝ) / ((pyInt (100 * turns)).toNat : ℝ)) := by positivity
    rw [distance_polar center _ _ hρ]
    ring
  · intro hn
    unfold generate_spiral_pattern
    rw [getD_map_range _ _ _ _ hn]
    show (Point2D.mk _ _).distance_to center = 0
    have h0 : radius * ((0 : ℕ) : ℝ) / ((pyInt (100 * turns) : ℤ) : ℝ) = 0 := by
      norm_num
    have := distance_polar center
      (radius * (((0 : ℕ) : ℝ) / ((pyInt (100 * turns) : ℤ) : ℝ)))
      ((((0 : ℕ) : ℝ) / ((pyInt (100 * turns) : ℤ) : ℝ)) * turns * 2 * Real.pi)
      (by positivity)
    rw [this]
    norm_num
  · intro hn
    have hilt : (pyInt (100 * turns)).toNat - 1 < (pyInt (100 * turns)).toNat := by omega
    unfold generate_spiral_pattern
    rw [getD_map_range _ _ _ _ hilt]
    show (Point2D.mk _ _).distance_to center = _
    have hcast : (((pyInt (100 * turns) : ℤ) : ℝ))
        = (((pyInt (100 * turns)).toNat : ℕ) : ℝ) := by
      exact_mod_cast (congrArg (fun z : ℤ => (z : ℝ)) (Int.toNat_of_nonneg hnn)).symm
    rw [hcast]
    have hρ : 0 ≤ radius * ((((pyInt (100 * turns)).toNat - 1 : ℕ) : ℝ)
        / (((pyInt (100 * turns)).toNat : ℕ) : ℝ)) := by positivity
    rw [distance_polar center _ _ hρ]
    have hsub : ((((pyInt (100 * turns)).toNat - 1 : ℕ)) : ℝ)
        = (((pyInt (100 * turns)).toNat : ℕ) : ℝ) - 1 := by
      have : 1 ≤ (pyInt (100 * turns)).toNat := hn
      push_cast [this]
      ring
    rw [hsub]
    ring

/-- Witness for the amended C7 at `radius = 1`, `turns = 3`. -/
theorem spiral_truncated_count_and_endpoints_witness :
    ∃ n : ℕ, (n : ℤ) = pyInt (100 * 3) ∧
      (generate_spiral_pattern ⟨0, 0⟩ 1 3).length = n ∧
      (∀ i < n, (generate_spiral_pattern ⟨0, 0⟩ 1 3).getD i ⟨0, 0⟩
        = ⟨(⟨0, 0⟩ : Point2D).x + 1 * ((i : ℝ) / n) *
              Real.cos (((i : ℝ) / n) * 3 * 2 * Real.pi),
           (⟨0, 0⟩ : Point2D).y + 1 * ((i : ℝ) / n) *
              Real.sin (((i : ℝ) / n) * 3 * 2 * Real.pi)⟩) ∧
      (∀ i < n, ((generate_spiral_pattern ⟨0, 0⟩ 1 3).getD i ⟨0, 0⟩).distance_to
          ⟨0, 0⟩ = 1 * (i : ℝ) / n) ∧
      (0 < n → ((generate_spiral_pattern ⟨0, 0⟩ 1 3).getD 0 ⟨0, 0⟩).distance_to
          ⟨0, 0⟩ = 0) ∧
      (0 < n → ((generate_spiral_pattern ⟨0, 0⟩ 1 3).getD (n - 1)
          ⟨0, 0⟩).distance_to ⟨0, 0⟩ = 1 * ((n : ℝ) - 1) / n) :=
  spiral_truncated_count_and_endpoints ⟨0, 0⟩ 1 3 (by norm_num) (by norm_num)

lemma sum_map_list_range {M : Type} [AddCommMonoid M] (f : ℕ → M) (n : ℕ) :
    ((List.range n).map f).sum = ∑ i ∈ Finset.range n, f i := by
  induction n with
  | zero => simp
  | succ m ih =>
      rw [List.range_succ, List.map_append, List.sum_append, Finset.sum_range_succ, ih]
      simp

lemma sum_exp_unit_circle (N : ℕ) (hN : 2 ≤ N) (φ : ℝ) :
    ∑ i ∈ Finset.range N,
      Complex.exp (((2 * Real.pi * (i : ℝ) / (N : ℝ) + φ : ℝ) : ℂ) * Complex.I) = 0 := by
  have hNR : (N : ℝ) ≠ 0 := by positivity
  have hNC : ((N : ℕ) : ℂ) ≠ 0 := Nat.cast_ne_zero.mpr (by omega)
  set z := Complex.exp (((2 * Real.pi / (N : ℝ) : ℝ) : ℂ) * Complex.I) with hz
  have hterm : ∀ i : ℕ,
      Complex.exp (((2 * Real.pi * (i : ℝ) / (N : ℝ) + φ : ℝ) : ℂ) * Complex.I)
        = Complex.exp (((φ : ℝ) : ℂ) * Complex.I) * z ^ i := by
    intro i
    rw [hz, ← Complex.exp_nat_mul, ← Complex.exp_add]
    congr 1
    push_cast
    ring
  have hz1 : z ≠ 1 := by
    rw [hz]
    intro hcontra
    have hre := congrArg Complex.re hcontra
    rw [Complex.exp_ofReal_mul_I_re] at hre
    simp only [Complex.one_re] at hre
    have hmem0 : (0 : ℝ) ∈ Set.Icc (0 : ℝ) Real.pi :=
      Set.mem_Icc.mpr ⟨le_refl 0, Real.pi_pos.le⟩
    have harg : 2 * Real.pi / (N : ℝ) ∈ Set.Icc (0 : ℝ) Real.pi := by
      refine Set.mem_Icc.mpr ⟨by positivity, ?_⟩
      rw [div_le_iff₀ (by positivity)]
      have h2 : (2 : ℝ) ≤ (N : ℝ) := by exact_mod_cast hN
      nlinarith [Real.pi_pos]
    have hlt : Real.cos (2 * Real.pi / (N : ℝ)) < Real.cos 0 :=
      Real.strictAntiOn_cos hmem0 harg (by positivity)
    rw [Real.cos_zero] at hlt
    linarith
  have hzN : z ^ N = 1 := by
    rw [hz, ← Complex.exp_nat_mul]
    rw [show ((N : ℕ) : ℂ) * (((2 * Real.pi / (N : ℝ) : ℝ) : ℂ) * Complex.I)
        = 2 * (Real.pi : ℂ) * Complex.I from by
      push_cast
      field_simp]
    exact Complex.exp_two_pi_mul_I
  calc ∑ i ∈ Finset.range N,
        Complex.exp (((2 * Real.pi * (i : ℝ) / (N : ℝ) + φ : ℝ) : ℂ) * Complex.I)
      = ∑ i ∈ Finset.range N, Complex.exp (((φ : ℝ) : ℂ) * Complex.I) * z ^ i :=
        Finset.sum_congr rfl fun i _ => hterm i
    _ = Complex.exp (((φ : ℝ) : ℂ) * Complex.I) * ∑ i ∈ Finset.range N, z ^ i := by
        rw [Finset.mul_sum]
    _ = 0 := by
        rw [geom_sum_eq hz1, hzN]
        simp

lemma sum_cos_circle (N : ℕ) (hN : 2 ≤ N) (φ : ℝ) :
    ∑ i ∈ Finset.range N, Real.cos (2 * Real.pi * (i : ℝ) / (N : ℝ) + φ) = 0 := by
  have h := congrArg Complex.re (sum_exp_unit_circle N hN φ)
  rw [Complex.re_sum] at h
  simpa only [Complex.exp_ofReal_mul_I_re, Complex.zero_re] using h

lemma sum_sin_circle (N : ℕ) (hN : 2 ≤ N) (φ : ℝ) :
    ∑ i ∈ Finset.range N, Real.sin (2 * Real.pi * (i : ℝ) / (N : ℝ) + φ) = 0 := by
  have h := congrArg Complex.im (sum_exp_unit_circle N hN φ)
  rw [Complex.im_sum] at h
  simpa only [Complex.exp_ofReal_mul_I_im, Complex.zero_im] using h

/-- A curve sampled as a perfect circle of radius 3 centered at the origin:
`N` points at evenly spaced angles `2*pi*i/N + φ` (the concrete input family
of the classification scenario). -/
noncomputable def circleSample (N : ℕ) (φ : ℝ) : List Point2D :=
  (List.range N).map fun (i : ℕ) =>
    ⟨3 * Real.cos (2 * Real.pi * (i : ℝ) / (N : ℝ) + φ),
     3 * Real.sin (2 * Real.pi * (i : ℝ) / (N : ℝ) + φ)⟩

lemma circleSample_length (N : ℕ) (φ : ℝ) : (circleSample N φ).length = N := by
  unfold circleSample
  rw [List.length_map]
  exact List.length_range N

lemma circle_point_dist (θ : ℝ) :
    (Point2D.mk (3 * Real.cos θ) (3 * Real.sin θ)).distance_to ⟨0, 0⟩ = 3 := by
  unfold Point2D.distance_to
  have hsq : (3 * Real.cos θ - (0 : ℝ)) ^ 2 + (3 * Real.sin θ - (0 : ℝ)) ^ 2
      = 3 ^ 2 := by
    have : (3 * Real.cos θ - (0 : ℝ)) ^ 2 + (3 * Real.sin θ - (0 : ℝ)) ^ 2
        = 3 ^ 2 * (Real.cos θ ^ 2 + Real.sin θ ^ 2) := by ring
    rw [this, Real.cos_sq_add_sin_sq, mul_one]
  rw [hsq]
  exact Real.sqrt_sq (by norm_num)

lemma centroid_circleSample (N : ℕ) (hN : 2 ≤ N) (φ : ℝ) :
    centroid (circleSample N φ) = ⟨0, 0⟩ := by
  unfold centroid circleSample
  have hx : ((List.range N).map fun (i : ℕ) =>
      (⟨3 * Real.cos (2 * Real.pi * (i : ℝ) / (N : ℝ) + φ),
        3 * Real.sin (2 * Real.pi * (i : ℝ) / (N : ℝ) + φ)⟩ : Point2D)).map Point2D.x
      = (List.range N).map fun (i : ℕ) =>
          3 * Real.cos (2 * Real.pi * (i : ℝ) / (N : ℝ) + φ) := by
    rw [List.map_map]
    rfl
  have hy : ((List.range N).map fun (i : ℕ) =>
      (⟨3 * Real.cos (2 * Real.pi * (i : ℝ) / (N : ℝ) + φ),
        3 * Real.sin (2 * Real.pi * (i : ℝ) / (N : ℝ) + φ)⟩ : Point2D)).map Point2D.y
      = (List.range N).map fun (i : ℕ) =>
          3 * Real.sin (2 * Real.pi * (i : ℝ) / (N : ℝ) + φ) := by
    rw [List.map_map]
    rfl
  rw [hx, hy, sum_map_list_range, sum_map_list_range]
  rw [show (∑ i ∈ Finset.range N, 3 * Real.cos (2 * Real.pi * (i : ℝ) / (N : ℝ) + φ))
      = 3 * ∑ i ∈ Finset.range N, Real.cos (2 * Real.pi * (i : ℝ) / (N : ℝ) + φ) from
    (Finset.mul_sum _ _ _).symm]
  rw [show (∑ i ∈ Finset.range N, 3 * Real.sin (2 * Real.pi * (i : ℝ) / (N : ℝ) + φ))
      = 3 * ∑ i ∈ Finset.range N, Real.sin (2 * Real.pi * (i : ℝ) / (N : ℝ) + φ) from
    (Finset.mul_sum _ _ _).symm]
  rw [sum_cos_circle N hN φ, sum_sin_circle N hN φ]
  simp

lemma circleSample_const_dist (N : ℕ) (hN : 2 ≤ N) (φ : ℝ) :
    ∀ p ∈ circleSample N φ, p.distance_to (centroid (circleSample N φ)) = 3 := by
  intro p hp
  rw [centroid_circleSample N hN φ]
  unfold circleSample at hp
  obtain ⟨i, _, hpe⟩ := List.mem_map.mp hp
  rw [← hpe]
  exact circle_point_dist _

lemma is_circular_of_const_dist (points : List Point2D) (R : ℝ) (hR : 0 < R)
    (hlen : 10 ≤ points.length)
    (hd : ∀ p ∈ points, p.distance_to (centroid points) = R) :
    is_circular_pattern points := by
  simp only [is_circular_pattern]
  rw [if_neg (by omega)]
  have hmap : (points.map fun p => p.distance_to (centroid points))
      = points.map fun _ => R := List.map_congr_left hd
  have hn : ((points.map fun p => p.distance_to (centroid points)).length : ℝ)
      = (points.length : ℝ) := by rw [List.length_map]
  rw [hmap]
  have hnR : (points.length : ℝ) ≠ 0 := by
    have : 0 < points.length := by omega
    positivity
  simp only [List.map_const', List.length_replicate, List.sum_replicate,
    List.map_replicate, smul_eq_mul, nsmul_eq_mul]
  have havg : (points.length : ℝ) * R / (points.length : ℝ) = R := by
    field_simp
  rw [havg]
  simp only [sub_self]
  norm_num
  positivity

lemma not_spiral_of_const_dist (points : List Point2D) (R : ℝ)
    (hd : ∀ p ∈ points, p.distance_to (centroid points) = R) :
    ¬ is_spiral_pattern points := by
  simp only [is_spiral_pattern]
  by_cases hlen : points.length < 20
  · rw [if_pos hlen]
    exact fun h => h
  · rw [if_neg hlen]
    have hmap : (points.map fun p => p.distance_to (centroid points))
        = List.replicate points.length R := by
      rw [List.map_congr_left hd, List.map_const']
    rw [hmap]
    intro hcontra
    have htrend := hcontra.2
    have hrep : ∀ i ∈ List.range (points.length - 1),
        ¬ ((List.replicate points.length R).getD (i + 1) 0
            > (List.replicate points.length R).getD i 0) := by
      intro i hi
      rw [List.mem_range] at hi
      have h1 : (List.replicate points.length R).getD (i + 1) 0 = R := by
        rw [List.getD_eq_getElem?_getD, List.getElem?_replicate]
        rw [if_pos (by omega)]
        rfl
      have h2 : (List.replicate points.length R).getD i 0 = R := by
        rw [List.getD_eq_getElem?_getD, List.getElem?_replicate]
        rw [if_pos (by omega)]
        rfl
      rw [h1, h2]
      exact lt_irrefl R
    have hfilter : ((List.range (points.length - 1)).filter fun i =>
        decide ((List.replicate points.length R).getD (i + 1) 0
          > (List.replicate points.length R).getD i 0)) = [] := by
      apply List.filter_eq_nil_iff.mpr
      intro i hi
      simpa using hrep i hi
    rw [hfilter] at htrend
    simp only [List.length_nil, Nat.cast_zero] at htrend
    have h20 : (20 : ℝ) ≤ (points.length : ℝ) := by
      have : 20 ≤ points.length := by omega
      exact_mod_cast this
    linarith

lemma detect_types_of_circular_not_spiral (points : List Point2D)
    (hlen : ¬ points.length < 10) (hcirc : is_circular_pattern points)
    (hnospiral : ¬ is_spiral_pattern points) :
    "circular" ∈ detect_curve_types points ∧ "spiral" ∉ detect_curve_types points := by
  unfold detect_curve_types
  rw [if_neg hlen, if_pos hcirc, if_neg hnospiral]
  rw [if_neg (by simp)]
  constructor
  · simp
  · by_cases hp : is_petal_pattern points
    · by_cases hl : has_linear_segments points
      · simp [hp, hl]
      · simp [hp, hl]
    · by_cases hl : has_linear_segments points
      · simp [hp, hl]
      · simp [hp, hl]

/-- C9: on a curve sampled as a perfect circle of radius 3 centered at the
origin with at least 20 evenly spaced angles, the classifier returns a tag
list containing "circular" and not containing "spiral". -/
theorem classify_circle_circular_not_spiral (N : ℕ) (φ : ℝ) (hN : 20 ≤ N) :
    "circular" ∈ detect_curve_types (circleSample N φ) ∧
    "spiral" ∉ detect_curve_types (circleSample N φ) := by
  have h2 : 2 ≤ N := by omega
  have hd := circleSample_const_dist N h2 φ
  refine detect_types_of_circular_not_spiral _ ?_ ?_ ?_
  · rw [circleSample_length]
    omega
  · exact is_circular_of_const_dist _ 3 (by norm_num) (by rw [circleSample_length]; omega) hd
  · exact not_spiral_of_const_dist _ 3 hd

/-- Witness for C9 at `N = 20`, phase 0. -/
theorem classify_circle_circular_not_spiral_witness :
    "circular" ∈ detect_curve_types (circleSample 20 0) ∧
    "spiral" ∉ detect_curve_types (circleSample 20 0) :=
  classify_circle_circular_not_spiral 20 0 (by norm_num)

lemma abs_cos_int_mul_pi (m : ℤ) : |Real.cos ((m : ℝ) * Real.pi)| = 1 := by
  have hsq : Real.cos ((m : ℝ) * Real.pi) ^ 2 = 1 := by
    have := Real.sin_sq_add_cos_sq ((m : ℝ) * Real.pi)
    rw [Real.sin_int_mul_pi m] at this
    linarith [this]
  have := sq_abs (Real.cos ((m : ℝ) * Real.pi))
  nlinarith [abs_nonneg (Real.cos ((m : ℝ) * Real.pi))]

lemma abs_cos_add_int_mul_pi (x : ℝ) (m : ℤ) :
    |Real.cos (x + (m : ℝ) * Real.pi)| = |Real.cos x| := by
  rw [Real.cos_add, Real.sin_int_mul_pi m]
  rw [show Real.cos x * Real.cos ((m : ℝ) * Real.pi) - Real.sin x * 0
      = Real.cos x * Real.cos ((m : ℝ) * Real.pi) from by ring]
  rw [abs_mul, abs_cos_int_mul_pi m, mul_one]

lemma sum_range_two_mul_split {M : Type} [AddCommMonoid M] (f : ℕ → M) (m : ℕ) :
    ∑ i ∈ Finset.range (m + m), f i
      = ∑ i ∈ Finset.range m, (f i + f (m + i)) := by
  have h1 : ∑ i ∈ Finset.range (m + m), f i
      = ∑ i ∈ Finset.Ico 0 m, f i + ∑ i ∈ Finset.Ico m (m + m), f i := by
    rw [Finset.range_eq_Ico]
    exact (Finset.sum_Ico_consecutive f (Nat.zero_le m) (Nat.le_add_right m m)).symm
  have h2 : ∑ i ∈ Finset.Ico m (m + m), f i = ∑ i ∈ Finset.range m, f (m + i) := by
    rw [Finset.sum_Ico_eq_sum_range]
    simp
  rw [h1, h2, ← Finset.range_eq_Ico, ← Finset.sum_add_distrib]

lemma petal_point_pair (R : ℝ) (m : ℤ) (i : ℕ) :
    (R * |Real.cos ((((2 * m : ℤ)) : ℝ) / 2 * (((i + 100 : ℕ) : ℝ) / 200 * 2 * Real.pi))| *
        Real.cos (((i + 100 : ℕ) : ℝ) / 200 * 2 * Real.pi))
      = -(R * |Real.cos ((((2 * m : ℤ)) : ℝ) / 2 * (((i : ℕ) : ℝ) / 200 * 2 * Real.pi))| *
        Real.cos (((i : ℕ) : ℝ) / 200 * 2 * Real.pi)) ∧
    (R * |Real.cos ((((2 * m : ℤ)) : ℝ) / 2 * (((i + 100 : ℕ) : ℝ) / 200 * 2 * Real.pi))| *
        Real.sin (((i + 100 : ℕ) : ℝ) / 200 * 2 * Real.pi))
      = -(R * |Real.cos ((((2 * m : ℤ)) : ℝ) / 2 * (((i : ℕ) : ℝ) / 200 * 2 * Real.pi))| *
        Real.sin (((i : ℕ) : ℝ) / 200 * 2 * Real.pi)) := by
  have ht : ((i + 100 : ℕ) : ℝ) / 200 * 2 * Real.pi
      = ((i : ℕ) : ℝ) / 200 * 2 * Real.pi + Real.pi := by
    push_cast
    ring
  have hk : (((2 * m : ℤ)) : ℝ) / 2 * (((i + 100 : ℕ) : ℝ) / 200 * 2 * Real.pi)
      = (((2 * m : ℤ)) : ℝ) / 2 * (((i : ℕ) : ℝ) / 200 * 2 * Real.pi)
        + (m : ℝ) * Real.pi := by
    push_cast
    ring
  constructor
  · rw [hk, abs_cos_add_int_mul_pi, ht, Real.cos_add_pi]
    ring
  · rw [hk, abs_cos_add_int_mul_pi, ht, Real.sin_add_pi]
    ring

/-- The centroid of an even-petal rose curve is exactly its center: the 200
samples pair up into point-symmetric opposites `i` and `i + 100`. -/
lemma centroid_petal (c : Point2D) (R : ℝ) (m : ℤ) :
    centroid (generate_petal_pattern c R (2 * m)) = c := by
  unfold centroid generate_petal_pattern
  have hx : (((List.range 200).map fun (i : ℕ) =>
        (⟨c.x + R * |Real.cos ((((2 * m : ℤ)) : ℝ) / 2 * ((i : ℝ) / 200 * 2 * Real.pi))| *
            Real.cos ((i : ℝ) / 200 * 2 * Real.pi),
          c.y + R * |Real.cos ((((2 * m : ℤ)) : ℝ) / 2 * ((i : ℝ) / 200 * 2 * Real.pi))| *
            Real.sin ((i : ℝ) / 200 * 2 * Real.pi)⟩ : Point2D)).map Point2D.x).sum
      = ∑ i ∈ Finset.range 200,
          (c.x + R * |Real.cos ((((2 * m : ℤ)) : ℝ) / 2 * ((i : ℝ) / 200 * 2 * Real.pi))| *
            Real.cos ((i : ℝ) / 200 * 2 * Real.pi)) := by
    rw [List.map_map]
    exact sum_map_list_range _ 200
  have hy : (((List.range 200).map fun (i : ℕ) =>
        (⟨c.x + R * |Real.cos ((((2 * m : ℤ)) : ℝ) / 2 * ((i : ℝ) / 200 * 2 * Real.pi))| *
            Real.cos ((i : ℝ) / 200 * 2 * Real.pi),
          c.y + R * |Real.cos ((((2 * m : ℤ)) : ℝ) / 2 * ((i : ℝ) / 200 * 2 * Real.pi))| *
            Real.sin ((i : ℝ) / 200 * 2 * Real.pi)⟩ : Point2D)).map Point2D.y).sum
      = ∑ i ∈ Finset.range 200,
          (c.y + R * |Real.cos ((((2 * m : ℤ)) : ℝ) / 2 * ((i : ℝ) / 200 * 2 * Real.pi))| *
            Real.sin ((i : ℝ) / 200 * 2 * Real.pi)) := by
    rw [List.map_map]
    exact sum_map_list_range _ 200
  have hgx : ∑ i ∈ Finset.range 200,
      (R * |Real.cos ((((2 * m : ℤ)) : ℝ) / 2 * ((i : ℝ) / 200 * 2 * Real.pi))| *
        Real.cos ((i : ℝ) / 200 * 2 * Real.pi)) = 0 := by
    rw [show (200 : ℕ) = 100 + 100 from rfl, sum_range_two_mul_split]
    apply Finset.sum_eq_zero
    intro i _
    have := (petal_point_pair R m i).1
    rw [show (100 + i : ℕ) = (i + 100 : ℕ) from by omega, this]
    ring
  have hgy : ∑ i ∈ Finset.range 200,
      (R * |Real.cos ((((2 * m : ℤ)) : ℝ) / 2 * ((i : ℝ) / 200 * 2 * Real.pi))| *
        Real.sin ((i : ℝ) / 200 * 2 * Real.pi)) = 0 := by
    rw [show (200 : ℕ) = 100 + 100 from rfl, sum_range_two_mul_split]
    apply Finset.sum_eq_zero
    intro i _
    have := (petal_point_pair R m i).2
    rw [show (100 + i : ℕ) = (i + 100 : ℕ) from by omega, this]
    ring
  rw [hx, hy, Finset.sum_add_distrib, Finset.sum_add_distrib, hgx, hgy]
  simp only [Finset.sum_const, Finset.card_range, List.length_map, List.length_range,
    nsmul_eq_mul, add_zero]
  obtain ⟨cx, cy⟩ := c
  simp only [Point2D.mk.injEq]
  constructor
  · push_cast
    ring
  · push_cast
    ring

/-- Modelled from the spec's testable property for the petal curve: the
centroid-relative radius profile of a sampled curve, in sample order. -/
noncomputable def radiusProfile (points : List Point2D) : List ℝ :=
  points.map fun q => q.distance_to (centroid points)

/-- Modelled from the spec's phrase "exactly n local maxima of the radius
profile": the number of cyclic strict local maxima of the sampled closed
profile (strict on both sides, matching the recognizer's own local-maximum
test in `_is_petal_pattern`). -/
noncomputable def localMaxCount (rs : List ℝ) : ℕ :=
  ((Finset.range rs.length).filter fun i =>
    rs.getD i 0 > rs.getD ((i + rs.length - 1) % rs.length) 0 ∧
    rs.getD i 0 > rs.getD ((i + 1) % rs.length) 0).card

lemma radiusProfile_petal (c : Point2D) (R : ℝ) (hR : 0 ≤ R) (m : ℤ) :
    radiusProfile (generate_petal_pattern c R (2 * m)) =
      (List.range 200).map fun (i : ℕ) =>
        R * |Real.cos ((m : ℝ) * ((i : ℝ) / 200 * 2 * Real.pi))| := by
  unfold radiusProfile
  rw [centroid_petal c R m]
  unfold generate_petal_pattern
  rw [List.map_map]
  apply List.map_congr_left
  intro i _
  have hk : (((2 * m : ℤ)) : ℝ) / 2 = (m : ℝ) := by
    push_cast
    ring
  show (Point2D.mk
      (c.x + R * |Real.cos ((((2 * m : ℤ)) : ℝ) / 2 * ((i : ℝ) / 200 * 2 * Real.pi))| *
        Real.cos ((i : ℝ) / 200 * 2 * Real.pi))
      (c.y + R * |Real.cos ((((2 * m : ℤ)) : ℝ) / 2 * ((i : ℝ) / 200 * 2 * Real.pi))| *
        Real.sin ((i : ℝ) / 200 * 2 * Real.pi))).distance_to c
    = R * |Real.cos ((m : ℝ) * ((i : ℝ) / 200 * 2 * Real.pi))|
  rw [distance_polar c _ _ (by positivity), hk]

/-- C8 counterexample: `petal(origin, 1, 400)` is even with petal count at
least 4, yet its 200 samples alias to a perfect circle (`|cos(200*t_i)| = 1`
at every sample), so the centroid-relative radius profile is constant and has
0 strict local maxima, not 400. -/
theorem petal_aliasing_four_hundred :
    Even (400 : ℤ) ∧ (4 : ℤ) ≤ 400 ∧ (0 : ℝ) < 1 ∧
    localMaxCount (radiusProfile (generate_petal_pattern ⟨0, 0⟩ 1 400)) = 0 ∧
    (localMaxCount (radiusProfile (generate_petal_pattern ⟨0, 0⟩ 1 400)) : ℤ) ≠ 400 := by
  have hprof : radiusProfile (generate_petal_pattern ⟨0, 0⟩ 1 400)
      = (List.range 200).map fun (_ : ℕ) => (1 : ℝ) := by
    rw [show (400 : ℤ) = 2 * 200 from rfl,
      radiusProfile_petal ⟨0, 0⟩ 1 (by norm_num) 200]
    apply List.map_congr_left
    intro i _
    have harg : ((200 : ℤ) : ℝ) * ((i : ℝ) / 200 * 2 * Real.pi)
        = (i : ℕ) * (2 * Real.pi) := by
      push_cast
      ring
    rw [harg, Real.cos_nat_mul_two_pi]
    norm_num
  have hcount : localMaxCount ((List.range 200).map fun (_ : ℕ) => (1 : ℝ)) = 0 := by
    unfold localMaxCount
    rw [List.length_map, List.length_range, Finset.card_eq_zero]
    apply Finset.filter_eq_empty_iff.mpr
    intro i hi
    rw [Finset.mem_range] at hi
    have h1 : ((List.range 200).map fun (_ : ℕ) => (1 : ℝ)).getD i 0 = 1 :=
      getD_map_range 200 _ i 0 hi
    have h2 : ((List.range 200).map fun (_ : ℕ) => (1 : ℝ)).getD
        ((i + 200 - 1) % 200) 0 = 1 :=
      getD_map_range 200 _ _ 0 (Nat.mod_lt _ (by norm_num))
    have h3 : ((List.range 200).map fun (_ : ℕ) => (1 : ℝ)).getD ((i + 1) % 200) 0 = 1 :=
      getD_map_range 200 _ _ 0 (Nat.mod_lt _ (by norm_num))
    rw [h1, h2, h3]
    simp
  refine ⟨⟨200, by norm_num⟩, by norm_num, by norm_num, ?_, ?_⟩
  · rw [hprof]
    exact hcount
  · rw [hprof, hcount]
    norm_num

/-- The sampled rose-radius profile value as a function of the sample index
reduced by the per-petal period `M`: `|cos(pi * a / M)|`. -/
noncomputable def cosProfile (M a : ℕ) : ℝ :=
  |Real.cos (Real.pi * (a : ℝ) / (M : ℝ))|

lemma cosProfile_mod (M : ℕ) (hM : 0 < M) (a : ℕ) :
    cosProfile M (a % M) = cosProfile M a := by
  unfold cosProfile
  set q := a / M with hq
  set r := a % M with hr
  have hsum : r + M * q = a := by
    rw [hr, hq]
    exact Nat.mod_add_div a M
  have hMR : ((M : ℕ) : ℝ) ≠ 0 := by positivity
  have hcast : (a : ℝ) = (r : ℝ) + (M : ℝ) * (q : ℝ) := by
    exact_mod_cast congrArg (fun k : ℕ => (k : ℝ)) hsum.symm
  have harg : Real.pi * (a : ℝ) / (M : ℝ)
      = Real.pi * (r : ℝ) / (M : ℝ) + ((q : ℤ) : ℝ) * Real.pi := by
    rw [hcast]
    push_cast
    field_simp
    ring
  rw [harg, abs_cos_add_int_mul_pi]

lemma cosProfile_zero (M : ℕ) : cosProfile M 0 = 1 := by
  unfold cosProfile
  norm_num

lemma abs_cos_lt_one (x : ℝ) (h0 : 0 < x) (hπ : x < Real.pi) : |Real.cos x| < 1 := by
  have hmem0 : (0 : ℝ) ∈ Set.Icc (0 : ℝ) Real.pi :=
    Set.mem_Icc.mpr ⟨le_refl 0, Real.pi_pos.le⟩
  have hmemπ : Real.pi ∈ Set.Icc (0 : ℝ) Real.pi :=
    Set.mem_Icc.mpr ⟨Real.pi_pos.le, le_refl _⟩
  have hmemx : x ∈ Set.Icc (0 : ℝ) Real.pi :=
    Set.mem_Icc.mpr ⟨h0.le, hπ.le⟩
  have hupper : Real.cos x < 1 := by
    have := Real.strictAntiOn_cos hmem0 hmemx h0
    rwa [Real.cos_zero] at this
  have hlower : -1 < Real.cos x := by
    have := Real.strictAntiOn_cos hmemx hmemπ hπ
    rwa [Real.cos_pi] at this
  exact abs_lt.mpr ⟨hlower, hupper⟩

lemma cosProfile_strict_anti (M : ℕ) (hM : 0 < M) (a b : ℕ) (hab : a < b)
    (hb : 2 * b ≤ M) : cosProfile M b < cosProfile M a := by
  unfold cosProfile
  have hMR : (0 : ℝ) < (M : ℝ) := by positivity
  have hargab : Real.pi * (a : ℝ) / (M : ℝ) < Real.pi * (b : ℝ) / (M : ℝ) := by
    have hub : (a : ℝ) < (b : ℝ) := by exact_mod_cast hab
    have hnum := mul_lt_mul_of_pos_left hub Real.pi_pos
    gcongr
  have h2b : 2 * (b : ℝ) ≤ (M : ℝ) := by exact_mod_cast hb
  have hbhalf : Real.pi * (b : ℝ) / (M : ℝ) ≤ Real.pi / 2 := by
    rw [div_le_div_iff₀ hMR (by norm_num)]
    nlinarith [Real.pi_pos]
  have hahalf : Real.pi * (a : ℝ) / (M : ℝ) ≤ Real.pi / 2 :=
    le_trans hargab.le hbhalf
  have hlowb : -(Real.pi / 2) ≤ Real.pi * (b : ℝ) / (M : ℝ) := by
    have hnn : (0 : ℝ) ≤ Real.pi * (b : ℝ) / (M : ℝ) := by positivity
    linarith [Real.pi_pos]
  have hlowa : -(Real.pi / 2) ≤ Real.pi * (a : ℝ) / (M : ℝ) := by
    have hnn : (0 : ℝ) ≤ Real.pi * (a : ℝ) / (M : ℝ) := by positivity
    linarith [Real.pi_pos]
  have hcb : 0 ≤ Real.cos (Real.pi * (b : ℝ) / (M : ℝ)) :=
    Real.cos_nonneg_of_mem_Icc (Set.mem_Icc.mpr ⟨hlowb, hbhalf⟩)
  have hca : 0 ≤ Real.cos (Real.pi * (a : ℝ) / (M : ℝ)) :=
    Real.cos_nonneg_of_mem_Icc (Set.mem_Icc.mpr ⟨hlowa, hahalf⟩)
  rw [abs_of_nonneg hcb, abs_of_nonneg hca]
  have hmema : Real.pi * (a : ℝ) / (M : ℝ) ∈ Set.Icc (0 : ℝ) Real.pi :=
    Set.mem_Icc.mpr ⟨by positivity, hahalf.trans (by linarith [Real.pi_pos])⟩
  have hmemb : Real.pi * (b : ℝ) / (M : ℝ) ∈ Set.Icc (0 : ℝ) Real.pi :=
    Set.mem_Icc.mpr ⟨by positivity, hbhalf.trans (by linarith [Real.pi_pos])⟩
  exact Real.strictAntiOn_cos hmema hmemb hargab

lemma cosProfile_strict_mono (M : ℕ) (hM : 0 < M) (a b : ℕ) (hab : a < b)
    (ha : M ≤ 2 * a) (hb : b ≤ M) : cosProfile M a < cosProfile M b := by
  unfold cosProfile
  have hMR : (0 : ℝ) < (M : ℝ) := by positivity
  have hargab : Real.pi * (a : ℝ) / (M : ℝ) < Real.pi * (b : ℝ) / (M : ℝ) := by
    have hub : (a : ℝ) < (b : ℝ) := by exact_mod_cast hab
    have hnum := mul_lt_mul_of_pos_left hub Real.pi_pos
    gcongr
  have h2a : (M : ℝ) ≤ 2 * (a : ℝ) := by exact_mod_cast ha
  have hbM : (b : ℝ) ≤ (M : ℝ) := by exact_mod_cast hb
  have hahalf : Real.pi / 2 ≤ Real.pi * (a : ℝ) / (M : ℝ) := by
    rw [div_le_div_iff₀ (by norm_num) hMR]
    nlinarith [Real.pi_pos]
  have hbhalf : Real.pi / 2 ≤ Real.pi * (b : ℝ) / (M : ℝ) :=
    le_trans hahalf hargab.le
  have haM : (a : ℝ) ≤ (M : ℝ) := by
    have : a ≤ M := by omega
    exact_mod_cast this
  have haπ : Real.pi * (a : ℝ) / (M : ℝ) ≤ Real.pi := by
    rw [div_le_iff₀ hMR]
    nlinarith [Real.pi_pos]
  have hbπ : Real.pi * (b : ℝ) / (M : ℝ) ≤ Real.pi := by
    rw [div_le_iff₀ hMR]
    nlinarith [Real.pi_pos]
  have hca : Real.cos (Real.pi * (a : ℝ) / (M : ℝ)) ≤ 0 :=
    Real.cos_nonpos_of_pi_div_two_le_of_le hahalf (by linarith [Real.pi_pos])
  have hcb : Real.cos (Real.pi * (b : ℝ) / (M : ℝ)) ≤ 0 :=
    Real.cos_nonpos_of_pi_div_two_le_of_le hbhalf (by linarith [Real.pi_pos])
  rw [abs_of_nonpos hca, abs_of_nonpos hcb]
  have hmema : Real.pi * (a : ℝ) / (M : ℝ) ∈ Set.Icc (0 : ℝ) Real.pi :=
    Set.mem_Icc.mpr ⟨by positivity, haπ⟩
  have hmemb : Real.pi * (b : ℝ) / (M : ℝ) ∈ Set.Icc (0 : ℝ) Real.pi :=
    Set.mem_Icc.mpr ⟨by positivity, hbπ⟩
  have := Real.strictAntiOn_cos hmema hmemb hargab
  linarith

/-- Characterization of the cyclic strict local maxima of the sampled rose
profile within one period: among residues `s < M` only `s = 0` (the petal
tip) is a strict local maximum. -/
lemma cosProfile_localmax_iff (M : ℕ) (hM : 2 ≤ M) (s : ℕ) (hs : s < M) :
    (cosProfile M s > cosProfile M ((s + M - 1) % M) ∧
     cosProfile M s > cosProfile M ((s + 1) % M)) ↔ s = 0 := by
  have hM0 : 0 < M := by omega
  constructor
  · intro hcond
    by_contra hs0
    have hs1 : 1 ≤ s := by omega
    rcases le_or_lt (2 * s) M with hhalf | hhalf
    · have hleft : (s + M - 1) % M = s - 1 := by
        have h1 : s + M - 1 = (s - 1) + M := by omega
        rw [h1, Nat.add_mod_right, Nat.mod_eq_of_lt (by omega)]
      have hdec : cosProfile M s < cosProfile M (s - 1) :=
        cosProfile_strict_anti M hM0 (s - 1) s (by omega) hhalf
      rw [hleft] at hcond
      exact absurd hcond.1 (not_lt.mpr hdec.le)
    · have hright : cosProfile M ((s + 1) % M) = cosProfile M (s + 1) :=
        cosProfile_mod M hM0 (s + 1)
      have hinc : cosProfile M s < cosProfile M (s + 1) :=
        cosProfile_strict_mono M hM0 s (s + 1) (by omega) (by omega) (by omega)
      rw [hright] at hcond
      exact absurd hcond.2 (not_lt.mpr hinc.le)
  · intro hs0
    subst hs0
    have hleft : (0 + M - 1) % M = M - 1 := by
      rw [Nat.zero_add, Nat.mod_eq_of_lt (by omega)]
    have hright : (0 + 1) % M = 1 := by
      rw [Nat.zero_add, Nat.mod_eq_of_lt (by omega)]
    rw [hleft, hright, cosProfile_zero]
    have hMR : (0 : ℝ) < (M : ℝ) := by positivity
    constructor
    · unfold cosProfile
      apply abs_cos_lt_one
      · have h1M : (1 : ℝ) ≤ ((M - 1 : ℕ) : ℝ) := by
          have : 1 ≤ M - 1 := by omega
          exact_mod_cast this
        positivity
      · have hlt : ((M - 1 : ℕ) : ℝ) < (M : ℝ) := by
          have : M - 1 < M := by omega
          exact_mod_cast this
        rw [div_lt_iff₀ hMR]
        nlinarith [Real.pi_pos]
    · unfold cosProfile
      apply abs_cos_lt_one
      · positivity
      · have h1M : (1 : ℝ) < (M : ℝ) := by
          have : 1 < M := by omega
          exact_mod_cast this
        rw [div_lt_iff₀ hMR]
        push_cast
        nlinarith [Real.pi_pos]

lemma card_multiples_in_range (N M : ℕ) (hM : 0 < M) :
    ((Finset.range (N * M)).filter fun i => i % M = 0).card = N := by
  have himg : ((Finset.range N).image fun j => j * M)
      = (Finset.range (N * M)).filter fun i => i % M = 0 := by
    ext i
    simp only [Finset.mem_image, Finset.mem_filter, Finset.mem_range]
    constructor
    · rintro ⟨j, hj, rfl⟩
      exact ⟨by exact Nat.mul_lt_mul_right hM |>.mpr hj, Nat.mul_mod_left j M⟩
    · rintro ⟨hlt, hmod⟩
      refine ⟨i / M, ?_, ?_⟩
      · rw [Nat.div_lt_iff_lt_mul hM]
        exact hlt
      · rw [Nat.div_mul_cancel (Nat.dvd_of_mod_eq_zero hmod)]
  rw [← himg, Finset.card_image_of_injective _ fun x y h =>
    Nat.eq_of_mul_eq_mul_right hM h, Finset.card_range]

/-- C8 amended: for an even petal count `n` with `4 ≤ n ≤ 100` whose petal
period aligns with the 200-sample grid (`n` divides 200, so every petal tip
is sampled exactly and no two samples tie around a tip), the centroid-relative
radius profile of `petal(center, radius, n)` has exactly `n` cyclic strict
local maxima.  (The restriction is necessary: sampling ties and aliasing break
the count for other `n`, e.g. `n = 400` yields 0 maxima.) -/
theorem petal_local_maxima_count (c : Point2D) (R : ℝ) (hR : 0 < R) (n : ℤ)
    (hev : Even n) (h4 : 4 ≤ n) (h100 : n ≤ 100) (hdvd : n ∣ 200) :
    (localMaxCount (radiusProfile (generate_petal_pattern c R n)) : ℤ) = n := by
  obtain ⟨m, hm⟩ := hev
  set N := n.toNat with hNdef
  have hNn : (N : ℤ) = n := Int.toNat_of_nonneg (by omega)
  have hN4 : 4 ≤ N := by omega
  have hN100 : N ≤ 100 := by omega
  have hNdvd : N ∣ 200 := by
    have h200 : (N : ℤ) ∣ (200 : ℤ) := by
      rw [hNn]
      exact hdvd
    exact_mod_cast h200
  set M := 200 / N with hMdef
  have hNM : N * M = 200 := Nat.mul_div_cancel' hNdvd
  have hM2 : 2 ≤ M := by
    by_contra hcon
    push_neg at hcon
    have hle : N * M ≤ N * 1 := Nat.mul_le_mul_left N (by omega)
    omega
  have hM0 : 0 < M := by omega
  have hMdvd200 : M ∣ 200 := ⟨N, by rw [Nat.mul_comm M N]; exact hNM.symm⟩
  have hm2 : n = 2 * m := by omega
  have h2m : (2 : ℝ) * ((m : ℤ) : ℝ) = (N : ℝ) := by
    have : (2 * m : ℤ) = (N : ℤ) := by omega
    exact_mod_cast this
  have hNMR : ((N : ℕ) : ℝ) * ((M : ℕ) : ℝ) = 200 := by exact_mod_cast hNM
  have hmul : (2 : ℝ) * ((m : ℤ) : ℝ) * ((M : ℕ) : ℝ) = 200 := by
    rw [h2m]
    exact hNMR
  have hprof : radiusProfile (generate_petal_pattern c R n)
      = (List.range 200).map fun (i : ℕ) => R * cosProfile M i := by
    rw [hm2, radiusProfile_petal c R hR.le m]
    apply List.map_congr_left
    intro i _
    unfold cosProfile
    have hMR : ((M : ℕ) : ℝ) ≠ 0 := by positivity
    have hargeq : ((m : ℤ) : ℝ) * ((i : ℝ) / 200 * 2 * Real.pi)
        = Real.pi * (i : ℝ) / (M : ℝ) := by
      field_simp
      linear_combination (Real.pi * (i : ℝ)) * hmul
    rw [hargeq]
  rw [hprof]
  unfold localMaxCount
  rw [List.length_map, List.length_range]
  have hcondition : ∀ i ∈ Finset.range 200,
      ((((List.range 200).map fun (j : ℕ) => R * cosProfile M j).getD i 0 >
          ((List.range 200).map fun (j : ℕ) => R * cosProfile M j).getD
            ((i + 200 - 1) % 200) 0) ∧
        (((List.range 200).map fun (j : ℕ) => R * cosProfile M j).getD i 0 >
          ((List.range 200).map fun (j : ℕ) => R * cosProfile M j).getD
            ((i + 1) % 200) 0)) ↔ i % M = 0 := by
    intro i hi
    rw [Finset.mem_range] at hi
    rw [getD_map_range 200 _ i 0 hi,
        getD_map_range 200 _ _ 0 (Nat.mod_lt _ (by norm_num)),
        getD_map_range 200 _ _ 0 (Nat.mod_lt _ (by norm_num))]
    have hcent : cosProfile M i = cosProfile M (i % M) :=
      (cosProfile_mod M hM0 i).symm
    have h199 : (199 : ℕ) % M = (M - 1) % M := by
      have hsub : (N - 1) * M = 200 - M := by
        rw [Nat.sub_mul, hNM, one_mul]
      have hM200 : M ≤ 200 := Nat.le_of_dvd (by norm_num) hMdvd200
      have hdecomp : (199 : ℕ) = (M - 1) + (N - 1) * M := by omega
      rw [hdecomp, Nat.add_mul_mod_self_right]
    have hL : cosProfile M ((i + 200 - 1) % 200)
        = cosProfile M ((i % M + M - 1) % M) := by
      rw [← cosProfile_mod M hM0 ((i + 200 - 1) % 200)]
      congr 1
      rw [Nat.mod_mod_of_dvd _ hMdvd200,
        show i + 200 - 1 = i + 199 from by omega,
        Nat.add_mod i 199, h199, Nat.add_mod_mod]
      congr 1
      omega
    have hRt : cosProfile M ((i + 1) % 200) = cosProfile M ((i % M + 1) % M) := by
      rw [← cosProfile_mod M hM0 ((i + 1) % 200)]
      congr 1
      rw [Nat.mod_mod_of_dvd _ hMdvd200, Nat.add_mod i 1,
        show (1 : ℕ) % M = 1 from Nat.mod_eq_of_lt (by omega)]
    rw [hcent, hL, hRt]
    simp only [gt_iff_lt, mul_lt_mul_left hR]
    exact cosProfile_localmax_iff M hM2 (i % M) (Nat.mod_lt _ hM0)
  rw [Finset.filter_congr hcondition,
    show (200 : ℕ) = N * M from hNM.symm,
    card_multiples_in_range N M hM0]
  exact hNn

/-- Witness for the amended C8 at `n = 8`, `radius = 1`. -/
theorem petal_local_maxima_count_witness :
    (localMaxCount (radiusProfile (generate_petal_pattern ⟨0, 0⟩ 1 8)) : ℤ) = 8 :=
  petal_local_maxima_count ⟨0, 0⟩ 1 (by norm_num) 8 (by decide) (by norm_num)
    (by norm_num) (by decide)

end Kolam
